import Mathlib

set_option linter.dupNamespace false
set_option linter.unusedVariables false
set_option maxRecDepth 100000

/-!
# protoc-gen-elmtypes / protoc-gen-flowtypes: schema-to-type-tree translation

A shallow embedding of the two generators of the repository

* `src/protoc-gen-elmtypes/genelmtypes/genelmtypes.go`   (namespace `genelmtypes`)
* `src/protoc-gen-flowtypes/genflowtypes/genflowtypes.go` (namespace `genflowtypes`)

Conventions of the embedding.

* A Go `string` is a Lean `String`.  The source only removes the ASCII byte `.`, tests a
  prefix and cuts that prefix off; on well-formed UTF-8 text these byte-wise operations
  coincide with the character-wise ones used here.
* A Go result pair `(T, error)` of an internal function is an `Except Error T`; the two
  entry points return `(string, error)` and are embedded as `String × Option Error`, so
  that the text returned next to an error is visible.
* The Go interfaces `ElmType` / `FlowType` are closed inductive types with one constructor
  per implementing type of the package.
* The descriptor registry and the protobuf descriptors are external libraries: they are
  records holding exactly the accessors the source reads.
-/

/-- Go `error` values.  The generators never build one; they pass on the registry's. -/
abbrev Error := String

namespace strings

/-- The call `strings.Replace(s, ".", "", -1)`: `s` with every `.` removed. -/
def ReplaceDots (s : String) : String :=
  ⟨s.data.filter (fun c => c != '.')⟩

/-- Go `strings.HasPrefix(s, p)`. -/
def HasPrefix (s p : String) : Bool :=
  p.data.isPrefixOf s.data

/-- Go `len(p)`.  The source uses it only as the cut position `name[len(p):]` under the
guard `strings.HasPrefix(name, p)`, where cutting `len(p)` bytes and cutting the
characters of `p` leave the same text. -/
def len (p : String) : Nat :=
  p.data.length

/-- Go slice expression `s[n:]`. -/
def sliceFrom (s : String) (n : Nat) : String :=
  ⟨s.data.drop n⟩

/-- Go `strings.Join(elems, sep)`. -/
def Join : List String → String → String
  | [], _ => ""
  | [a], _ => a
  | a :: b :: rest, sep => a ++ sep ++ Join (b :: rest) sep

end strings

namespace pbdescriptor

/-- The protobuf enumeration `FieldDescriptorProto_Type` (an `int32`). -/
abbrev FieldDescriptorProto_Type := Int

/-- The protobuf enumeration `FieldDescriptorProto_Label` (an `int32`). -/
abbrev FieldDescriptorProto_Label := Int

@[simp] def FieldDescriptorProto_TYPE_DOUBLE : FieldDescriptorProto_Type := 1
@[simp] def FieldDescriptorProto_TYPE_FLOAT : FieldDescriptorProto_Type := 2
@[simp] def FieldDescriptorProto_TYPE_INT64 : FieldDescriptorProto_Type := 3
@[simp] def FieldDescriptorProto_TYPE_UINT64 : FieldDescriptorProto_Type := 4
@[simp] def FieldDescriptorProto_TYPE_INT32 : FieldDescriptorProto_Type := 5
@[simp] def FieldDescriptorProto_TYPE_FIXED64 : FieldDescriptorProto_Type := 6
@[simp] def FieldDescriptorProto_TYPE_FIXED32 : FieldDescriptorProto_Type := 7
@[simp] def FieldDescriptorProto_TYPE_BOOL : FieldDescriptorProto_Type := 8
@[simp] def FieldDescriptorProto_TYPE_STRING : FieldDescriptorProto_Type := 9
@[simp] def FieldDescriptorProto_TYPE_GROUP : FieldDescriptorProto_Type := 10
@[simp] def FieldDescriptorProto_TYPE_MESSAGE : FieldDescriptorProto_Type := 11
@[simp] def FieldDescriptorProto_TYPE_BYTES : FieldDescriptorProto_Type := 12
@[simp] def FieldDescriptorProto_TYPE_UINT32 : FieldDescriptorProto_Type := 13
@[simp] def FieldDescriptorProto_TYPE_ENUM : FieldDescriptorProto_Type := 14
@[simp] def FieldDescriptorProto_TYPE_SFIXED32 : FieldDescriptorProto_Type := 15
@[simp] def FieldDescriptorProto_TYPE_SFIXED64 : FieldDescriptorProto_Type := 16
@[simp] def FieldDescriptorProto_TYPE_SINT32 : FieldDescriptorProto_Type := 17
@[simp] def FieldDescriptorProto_TYPE_SINT64 : FieldDescriptorProto_Type := 18

@[simp] def FieldDescriptorProto_LABEL_OPTIONAL : FieldDescriptorProto_Label := 1
@[simp] def FieldDescriptorProto_LABEL_REQUIRED : FieldDescriptorProto_Label := 2
@[simp] def FieldDescriptorProto_LABEL_REPEATED : FieldDescriptorProto_Label := 3

/-- One value of an enum; the source reads `GetName()` only. -/
structure EnumValueDescriptorProto where
  GetName : String
  deriving DecidableEq, Repr

end pbdescriptor

namespace descriptor

/-- The Go package a file is generated into; the source reads `GoPkg.Name` only. -/
structure GoPackage where
  Name : String
  deriving DecidableEq, Repr

/-- What the source reads through the `File` pointer of a message or enum. -/
structure FileRef where
  GoPkg : GoPackage
  deriving DecidableEq, Repr

/-- A message field, given by the four accessors the source calls. -/
structure Field where
  GetName : String
  GetType : pbdescriptor.FieldDescriptorProto_Type
  GetTypeName : String
  GetLabel : pbdescriptor.FieldDescriptorProto_Label
  deriving DecidableEq, Repr

/-- A message: its fully-qualified name `FQMN()`, its owning file and its fields. -/
structure Message where
  FQMN : String
  File : FileRef
  Fields : List Field
  deriving DecidableEq, Repr

/-- An enum: its fully-qualified name `FQEN()`, its owning file and its values. -/
structure Enum where
  FQEN : String
  File : FileRef
  Value : List pbdescriptor.EnumValueDescriptorProto
  deriving DecidableEq, Repr

/-- A schema file: its name, its enums and its messages, in declared order. -/
structure File where
  GetName : String
  Enums : List Enum
  Messages : List Message
  deriving DecidableEq, Repr

/-- The registry, given by the three lookups the source calls. -/
structure Registry where
  LookupMsg : String → String → Except Error Message
  LookupEnum : String → String → Except Error Enum
  LookupFile : String → Except Error File

end descriptor

open pbdescriptor

/-! ## Package genelmtypes -/

namespace genelmtypes

structure config where
  alwaysQualifyTypeNames : Bool
  deriving DecidableEq, Repr

mutual
/-- The interface `ElmType` with its implementing types. -/
inductive ElmType where
  | simpleElmType (s : String)
  | repeatedElmType (t : ElmType)
  | named (n : namedElmType)
  | objectElmType (Fields : List namedElmType)
/-- The struct `namedElmType`, the only implementation of `NamedElmType`. -/
inductive namedElmType where
  | mk (Name : String) (Typ : ElmType)
end

/-- The method `(*namedElmType).ElmTypeName`. -/
def namedElmType.ElmTypeName : namedElmType → String
  | .mk Name _ => Name

mutual
/-- The method `ElmType()` of the four implementing types. -/
def ElmType.ElmType : genelmtypes.ElmType → String
  | .simpleElmType s => s
  | .repeatedElmType t => "List " ++ t.ElmType
  | .named n => n.ElmType
  | .objectElmType Fields => "\x7b\n" ++ strings.Join (objectElmType.fields Fields) ",\n" ++ "\n\x7d"
/-- The method `(*namedElmType).ElmType`: the first `return`. -/
def namedElmType.ElmType : genelmtypes.namedElmType → String
  | .mk _ Typ => Typ.ElmType
/-- The loop of `(*objectElmType).ElmType` filling `fields`. -/
def objectElmType.fields : List genelmtypes.namedElmType → List String
  | [] => []
  | f :: rest => ("  " ++ f.ElmTypeName ++ ": Maybe " ++ f.ElmType) :: objectElmType.fields rest
end

mutual
/-- The method `IsTypeAlias()` of the four implementing types. -/
def ElmType.IsTypeAlias : genelmtypes.ElmType → Bool
  | .simpleElmType _ => false
  | .repeatedElmType _ => false
  | .named n => n.IsTypeAlias
  | .objectElmType _ => true
/-- The method `(*namedElmType).IsTypeAlias`. -/
def namedElmType.IsTypeAlias : genelmtypes.namedElmType → Bool
  | .mk _ Typ => Typ.IsTypeAlias
end

def enumTypeName (cfg : config) (e : descriptor.Enum) : String :=
  let name := strings.ReplaceDots e.FQEN
  if !cfg.alwaysQualifyTypeNames then
    if strings.HasPrefix name e.File.GoPkg.Name then
      strings.sliceFrom name (strings.len e.File.GoPkg.Name)
    else name
  else name

def messageTypeName (cfg : config) (m : descriptor.Message) : String :=
  let name := strings.ReplaceDots m.FQMN
  if !cfg.alwaysQualifyTypeNames then
    if strings.HasPrefix name m.File.GoPkg.Name then
      strings.sliceFrom name (strings.len m.File.GoPkg.Name)
    else name
  else name

/-- The `switch` of `fieldToType`: the value of `fieldType` before the label is read.
The `fallthrough` chains are disjunctions; the `default` case also dumps the kind to the
standard output, which does not reach the result. -/
def fieldToType.base (cfg : config) (f : descriptor.Field) (reg : descriptor.Registry) :
    Except Error ElmType :=
  let ty := f.GetType
  if ty = FieldDescriptorProto_TYPE_DOUBLE ∨ ty = FieldDescriptorProto_TYPE_FLOAT then
    .ok (.simpleElmType "Float")
  else if ty = FieldDescriptorProto_TYPE_INT64 ∨ ty = FieldDescriptorProto_TYPE_UINT64
      ∨ ty = FieldDescriptorProto_TYPE_INT32 ∨ ty = FieldDescriptorProto_TYPE_FIXED64
      ∨ ty = FieldDescriptorProto_TYPE_FIXED32 ∨ ty = FieldDescriptorProto_TYPE_UINT32
      ∨ ty = FieldDescriptorProto_TYPE_SFIXED32 ∨ ty = FieldDescriptorProto_TYPE_SFIXED64
      ∨ ty = FieldDescriptorProto_TYPE_SINT32 ∨ ty = FieldDescriptorProto_TYPE_SINT64 then
    .ok (.simpleElmType "Int")
  else if ty = FieldDescriptorProto_TYPE_BOOL then
    .ok (.simpleElmType "Boolean")
  else if ty = FieldDescriptorProto_TYPE_STRING then
    .ok (.simpleElmType "String")
  else if ty = FieldDescriptorProto_TYPE_GROUP then
    .ok (.simpleElmType "?")
  else if ty = FieldDescriptorProto_TYPE_MESSAGE then
    match reg.LookupMsg "" f.GetTypeName with
    | .error err => .error err
    | .ok ft => .ok (.simpleElmType (messageTypeName cfg ft))
  else if ty = FieldDescriptorProto_TYPE_BYTES then
    .ok (.simpleElmType "string")
  else if ty = FieldDescriptorProto_TYPE_ENUM then
    match reg.LookupEnum "" f.GetTypeName with
    | .error err => .error err
    | .ok e => .ok (.simpleElmType (enumTypeName cfg e))
  else
    .ok (.simpleElmType f.GetTypeName)

def fieldToType (cfg : config) (f : descriptor.Field) (reg : descriptor.Registry) :
    Except Error namedElmType :=
  match fieldToType.base cfg f reg with
  | .error err => .error err
  | .ok fieldType =>
    let fieldType :=
      if f.GetLabel = FieldDescriptorProto_LABEL_REPEATED then .repeatedElmType fieldType
      else fieldType
    .ok (.mk f.GetName fieldType)

/-- The loop of `messageToElmType` over `m.Fields`; `acc` is `t.Fields` so far. -/
def messageToElmType.loop (cfg : config) (reg : descriptor.Registry) :
    List descriptor.Field → List namedElmType → Except Error (List namedElmType)
  | [], acc => .ok acc
  | f :: rest, acc =>
    match fieldToType cfg f reg with
    | .error err => .error err
    | .ok field => messageToElmType.loop cfg reg rest (acc ++ [field])

def messageToElmType (cfg : config) (m : descriptor.Message) (reg : descriptor.Registry) :
    Except Error ElmType :=
  match messageToElmType.loop cfg reg m.Fields [] with
  | .error err => .error err
  | .ok Fields => .ok (.named (.mk (messageTypeName cfg m) (.objectElmType Fields)))

def enumToElmType (cfg : config) (e : descriptor.Enum) (reg : descriptor.Registry) :
    Except Error ElmType :=
  let options := e.Value.map (fun v => v.GetName)
  let name := enumTypeName cfg e
  .ok (.named (.mk name (.simpleElmType (strings.Join options " | "))))

/-- The first loop of `generateElmTypes`, over `f.Enums`. -/
def generateElmTypes.enums (cfg : config) (registry : descriptor.Registry) :
    List descriptor.Enum → List ElmType → Except Error (List ElmType)
  | [], result => .ok result
  | enum :: rest, result =>
    match enumToElmType cfg enum registry with
    | .error err => .error err
    | .ok t => generateElmTypes.enums cfg registry rest (result ++ [t])

/-- The second loop of `generateElmTypes`, over `f.Messages`. -/
def generateElmTypes.messages (cfg : config) (registry : descriptor.Registry) :
    List descriptor.Message → List ElmType → Except Error (List ElmType)
  | [], result => .ok result
  | message :: rest, result =>
    match messageToElmType cfg message registry with
    | .error err => .error err
    | .ok t => generateElmTypes.messages cfg registry rest (result ++ [t])

/-- What the template finds under `.ElmTypeName`: only `*namedElmType` has the method. -/
def ElmType.ElmTypeName? : genelmtypes.ElmType → Option String
  | .named n => some n.ElmTypeName
  | _ => none

/-- Execution of the `range` block of the template on `result`: one entry per element, in
order; an element without the method `ElmTypeName` makes the execution fail. -/
def template.range : List ElmType → Except Error String
  | [] => .ok ""
  | d :: rest =>
    match d.ElmTypeName? with
    | none => .error "template: can't evaluate field ElmTypeName"
    | some name =>
      match template.range rest with
      | .error err => .error err
      | .ok out =>
        .ok ("type " ++ (if d.IsTypeAlias then "alias " else "") ++ name ++ " = "
              ++ d.ElmType ++ "\n\n" ++ out)

/-- The call `tmpl.Execute(buf, result)` followed by `buf.Bytes()`. -/
def template.Execute (result : List ElmType) : Except Error String :=
  match template.range result with
  | .error err => .error err
  | .ok out => .ok ("-- this is a generated file\n" ++ out)

def generateElmTypes (file : descriptor.File) (registry : descriptor.Registry)
    (qualifyTypes : Bool) : String × Option Error :=
  match registry.LookupFile file.GetName with
  | .error err => ("", some err)
  | .ok f =>
    let cfg : config := { alwaysQualifyTypeNames := qualifyTypes }
    match generateElmTypes.enums cfg registry f.Enums [] with
    | .error err => ("", some err)
    | .ok result =>
      match generateElmTypes.messages cfg registry f.Messages result with
      | .error err => ("", some err)
      | .ok result =>
        match template.Execute result with
        | .error err => ("", some err)
        | .ok text => (text, none)

end genelmtypes

/-! ## Package genflowtypes -/

namespace genflowtypes

structure config where
  alwaysQualifyTypeNames : Bool
  embedEnums : Bool
  deriving DecidableEq, Repr

mutual
/-- The interface `FlowType` with its implementing types. -/
inductive FlowType where
  | simpleFlowType (s : String)
  | repeatedFlowType (t : FlowType)
  | named (n : namedFlowType)
  | objectFlowType (Fields : List namedFlowType)
/-- The struct `namedFlowType`, the only implementation of `NamedFlowType`. -/
inductive namedFlowType where
  | mk (Name : String) (Typ : FlowType)
end

/-- The method `(*namedFlowType).FlowTypeName`. -/
def namedFlowType.FlowTypeName : namedFlowType → String
  | .mk Name _ => Name

mutual
/-- The method `FlowType()` of the four implementing types. -/
def FlowType.FlowType : genflowtypes.FlowType → String
  | .simpleFlowType s => s
  | .repeatedFlowType t => "Array<" ++ t.FlowType ++ ">"
  | .named n => n.FlowType
  | .objectFlowType Fields =>
    "\x7b\n" ++ strings.Join (objectFlowType.fields Fields) ",\n" ++ "\n\x7d"
/-- The method `(*namedFlowType).FlowType`: the first `return`. -/
def namedFlowType.FlowType : genflowtypes.namedFlowType → String
  | .mk _ Typ => Typ.FlowType
/-- The loop of `(*objectFlowType).FlowType` filling `fields`. -/
def objectFlowType.fields : List genflowtypes.namedFlowType → List String
  | [] => []
  | f :: rest => ("  " ++ f.FlowTypeName ++ "?: " ++ f.FlowType) :: objectFlowType.fields rest
end

def enumTypeName (cfg : config) (e : descriptor.Enum) : String :=
  let name := strings.ReplaceDots e.FQEN
  if !cfg.alwaysQualifyTypeNames then
    if strings.HasPrefix name e.File.GoPkg.Name then
      strings.sliceFrom name (strings.len e.File.GoPkg.Name)
    else name
  else name

def messageTypeName (cfg : config) (m : descriptor.Message) : String :=
  let name := strings.ReplaceDots m.FQMN
  if !cfg.alwaysQualifyTypeNames then
    if strings.HasPrefix name m.File.GoPkg.Name then
      strings.sliceFrom name (strings.len m.File.GoPkg.Name)
    else name
  else name

def enumToFlowType (cfg : config) (e : descriptor.Enum) (reg : descriptor.Registry) :
    Except Error FlowType :=
  let options := e.Value.map (fun v => "\"" ++ v.GetName ++ "\"")
  let name := enumTypeName cfg e
  .ok (.named (.mk name (.simpleFlowType (strings.Join options " | "))))

/-- The `switch` of `fieldToType`: the value of `fieldType` before the label is read.
The switch has no `default` case, so an unlisted kind keeps the initial `"any"`. -/
def fieldToType.base (cfg : config) (f : descriptor.Field) (reg : descriptor.Registry) :
    Except Error FlowType :=
  let ty := f.GetType
  if ty = FieldDescriptorProto_TYPE_DOUBLE ∨ ty = FieldDescriptorProto_TYPE_FLOAT
      ∨ ty = FieldDescriptorProto_TYPE_INT64 ∨ ty = FieldDescriptorProto_TYPE_UINT64
      ∨ ty = FieldDescriptorProto_TYPE_INT32 ∨ ty = FieldDescriptorProto_TYPE_FIXED64
      ∨ ty = FieldDescriptorProto_TYPE_FIXED32 ∨ ty = FieldDescriptorProto_TYPE_UINT32
      ∨ ty = FieldDescriptorProto_TYPE_SFIXED32 ∨ ty = FieldDescriptorProto_TYPE_SFIXED64
      ∨ ty = FieldDescriptorProto_TYPE_SINT32 ∨ ty = FieldDescriptorProto_TYPE_SINT64 then
    .ok (.simpleFlowType "number")
  else if ty = FieldDescriptorProto_TYPE_BOOL then
    .ok (.simpleFlowType "boolean")
  else if ty = FieldDescriptorProto_TYPE_STRING then
    .ok (.simpleFlowType "string")
  else if ty = FieldDescriptorProto_TYPE_GROUP then
    .ok (.simpleFlowType "any")
  else if ty = FieldDescriptorProto_TYPE_MESSAGE then
    match reg.LookupMsg "" f.GetTypeName with
    | .error err => .error err
    | .ok ft => .ok (.simpleFlowType (messageTypeName cfg ft))
  else if ty = FieldDescriptorProto_TYPE_BYTES then
    .ok (.simpleFlowType "string")
  else if ty = FieldDescriptorProto_TYPE_ENUM then
    match reg.LookupEnum "" f.GetTypeName with
    | .error err => .error err
    | .ok e =>
      if cfg.embedEnums then
        match enumToFlowType cfg e reg with
        | .error err => .error err
        | .ok fieldType => .ok fieldType
      else
        .ok (.simpleFlowType (enumTypeName cfg e))
  else
    .ok (.simpleFlowType "any")

def fieldToType (cfg : config) (f : descriptor.Field) (reg : descriptor.Registry) :
    Except Error namedFlowType :=
  match fieldToType.base cfg f reg with
  | .error err => .error err
  | .ok fieldType =>
    let fieldType :=
      if f.GetLabel = FieldDescriptorProto_LABEL_REPEATED then .repeatedFlowType fieldType
      else fieldType
    .ok (.mk f.GetName fieldType)

/-- The loop of `messageToFlowType` over `m.Fields`; `acc` is `t.Fields` so far. -/
def messageToFlowType.loop (cfg : config) (reg : descriptor.Registry) :
    List descriptor.Field → List namedFlowType → Except Error (List namedFlowType)
  | [], acc => .ok acc
  | f :: rest, acc =>
    match fieldToType cfg f reg with
    | .error err => .error err
    | .ok field => messageToFlowType.loop cfg reg rest (acc ++ [field])

def messageToFlowType (cfg : config) (m : descriptor.Message) (reg : descriptor.Registry) :
    Except Error FlowType :=
  match messageToFlowType.loop cfg reg m.Fields [] with
  | .error err => .error err
  | .ok Fields => .ok (.named (.mk (messageTypeName cfg m) (.objectFlowType Fields)))

/-- The first loop of `generateFlowTypes`, over `f.Enums`. -/
def generateFlowTypes.enums (cfg : config) (registry : descriptor.Registry) :
    List descriptor.Enum → List FlowType → Except Error (List FlowType)
  | [], result => .ok result
  | enum :: rest, result =>
    match enumToFlowType cfg enum registry with
    | .error err => .error err
    | .ok t => generateFlowTypes.enums cfg registry rest (result ++ [t])

/-- The second loop of `generateFlowTypes`, over `f.Messages`. -/
def generateFlowTypes.messages (cfg : config) (registry : descriptor.Registry) :
    List descriptor.Message → List FlowType → Except Error (List FlowType)
  | [], result => .ok result
  | message :: rest, result =>
    match messageToFlowType cfg message registry with
    | .error err => .error err
    | .ok t => generateFlowTypes.messages cfg registry rest (result ++ [t])

/-- What the template finds under `.FlowTypeName`: only `*namedFlowType` has the method. -/
def FlowType.FlowTypeName? : genflowtypes.FlowType → Option String
  | .named n => some n.FlowTypeName
  | _ => none

/-- Execution of the `range` block of the template on `result`: one entry per element, in
order; an element without the method `FlowTypeName` makes the execution fail. -/
def template.range : List FlowType → Except Error String
  | [] => .ok ""
  | d :: rest =>
    match d.FlowTypeName? with
    | none => .error "template: can't evaluate field FlowTypeName"
    | some name =>
      match template.range rest with
      | .error err => .error err
      | .ok out => .ok ("export type " ++ name ++ " = " ++ d.FlowType ++ ";\n\n" ++ out)

/-- The call `tmpl.Execute(buf, result)` followed by `buf.Bytes()`. -/
def template.Execute (result : List FlowType) : Except Error String :=
  match template.range result with
  | .error err => .error err
  | .ok out => .ok ("/* @flow */\n" ++ out)

def generateFlowTypes (file : descriptor.File) (registry : descriptor.Registry)
    (qualifyTypes : Bool) (embedEnums : Bool) : String × Option Error :=
  match registry.LookupFile file.GetName with
  | .error err => ("", some err)
  | .ok f =>
    let cfg : config := { alwaysQualifyTypeNames := qualifyTypes, embedEnums := embedEnums }
    match generateFlowTypes.enums cfg registry f.Enums [] with
    | .error err => ("", some err)
    | .ok result =>
      match generateFlowTypes.messages cfg registry f.Messages result with
      | .error err => ("", some err)
      | .ok result =>
        match template.Execute result with
        | .error err => ("", some err)
        | .ok text => (text, none)

end genflowtypes

/-! ## Scenario: one enum `Status`, one message `Person` -/

namespace scenario

/-- The enum `Status` of package `example`, in file `person.proto`. -/
def statusEnum : descriptor.Enum :=
  { FQEN := ".example.Status", File := ⟨⟨"example"⟩⟩, Value := [⟨"ACTIVE"⟩, ⟨"INACTIVE"⟩] }

/-- The field `name` of `Person`: an optional string. -/
def nameField : descriptor.Field :=
  { GetName := "name", GetType := FieldDescriptorProto_TYPE_STRING, GetTypeName := "",
    GetLabel := FieldDescriptorProto_LABEL_OPTIONAL }

/-- The field `age` of `Person`: an optional int32. -/
def ageField : descriptor.Field :=
  { GetName := "age", GetType := FieldDescriptorProto_TYPE_INT32, GetTypeName := "",
    GetLabel := FieldDescriptorProto_LABEL_OPTIONAL }

/-- The message `Person` of package `example`. -/
def personMessage : descriptor.Message :=
  { FQMN := ".example.Person", File := ⟨⟨"example"⟩⟩, Fields := [nameField, ageField] }

/-- The file `person.proto`. -/
def personFile : descriptor.File :=
  { GetName := "person.proto", Enums := [statusEnum], Messages := [personMessage] }

/-- A registry that knows `person.proto`, `.example.Person` and `.example.Status` only. -/
def personRegistry : descriptor.Registry :=
  { LookupMsg := fun _ name =>
      if name = ".example.Person" then .ok personMessage else .error ("no message found: " ++ name)
    LookupEnum := fun _ name =>
      if name = ".example.Status" then .ok statusEnum else .error ("no enum found: " ++ name)
    LookupFile := fun name =>
      if name = "person.proto" then .ok personFile else .error ("no such file given: " ++ name) }

end scenario

/-! ## Scenario: a message with unresolved references -/

namespace scenario

/-- The field `id` of `Order`: an optional int32. -/
def idField : descriptor.Field :=
  { GetName := "id", GetType := FieldDescriptorProto_TYPE_INT32, GetTypeName := "",
    GetLabel := FieldDescriptorProto_LABEL_OPTIONAL }

/-- The field `customer` of `Order`: a message reference the registry does not know. -/
def customerField : descriptor.Field :=
  { GetName := "customer", GetType := FieldDescriptorProto_TYPE_MESSAGE,
    GetTypeName := ".example.Customer", GetLabel := FieldDescriptorProto_LABEL_OPTIONAL }

/-- The field `state` of `Order`: an enum reference the registry does not know. -/
def stateField : descriptor.Field :=
  { GetName := "state", GetType := FieldDescriptorProto_TYPE_ENUM,
    GetTypeName := ".example.State", GetLabel := FieldDescriptorProto_LABEL_REPEATED }

/-- The message `Order` of package `example`. -/
def orderMessage : descriptor.Message :=
  { FQMN := ".example.Order", File := ⟨⟨"example"⟩⟩,
    Fields := [idField, customerField, stateField] }

/-- The file `order.proto`: the enum `Status`, then the messages `Person` and `Order`. -/
def orderFile : descriptor.File :=
  { GetName := "order.proto", Enums := [statusEnum], Messages := [personMessage, orderMessage] }

/-- A registry that knows `order.proto`, `.example.Person` and `.example.Status` only. -/
def orderRegistry : descriptor.Registry :=
  { LookupMsg := fun _ name =>
      if name = ".example.Person" then .ok personMessage else .error ("no message found: " ++ name)
    LookupEnum := fun _ name =>
      if name = ".example.Status" then .ok statusEnum else .error ("no enum found: " ++ name)
    LookupFile := fun name =>
      if name = "order.proto" then .ok orderFile else .error ("no such file given: " ++ name) }

end scenario

/-! ## Scenario: two enums and two messages -/

namespace scenario

/-- The enum `Color` of package `example`. -/
def colorEnum : descriptor.Enum :=
  { FQEN := ".example.Color", File := ⟨⟨"example"⟩⟩, Value := [⟨"RED"⟩, ⟨"GREEN"⟩, ⟨"BLUE"⟩] }

/-- The field `owner` of `Pet`: a reference to the message `Person`. -/
def ownerField : descriptor.Field :=
  { GetName := "owner", GetType := FieldDescriptorProto_TYPE_MESSAGE,
    GetTypeName := ".example.Person", GetLabel := FieldDescriptorProto_LABEL_OPTIONAL }

/-- The field `colors` of `Pet`: a repeated reference to the enum `Color`. -/
def colorsField : descriptor.Field :=
  { GetName := "colors", GetType := FieldDescriptorProto_TYPE_ENUM,
    GetTypeName := ".example.Color", GetLabel := FieldDescriptorProto_LABEL_REPEATED }

/-- An optional reference to the enum `Status`, as a field of some message. -/
def statusField : descriptor.Field :=
  { GetName := "status", GetType := FieldDescriptorProto_TYPE_ENUM,
    GetTypeName := ".example.Status", GetLabel := FieldDescriptorProto_LABEL_OPTIONAL }

/-- The message `Pet` of package `example`. -/
def petMessage : descriptor.Message :=
  { FQMN := ".example.Pet", File := ⟨⟨"example"⟩⟩, Fields := [ownerField, colorsField] }

/-- The file `pets.proto`: enums `Status`, `Color`, then messages `Pet`, `Person`. -/
def petsFile : descriptor.File :=
  { GetName := "pets.proto", Enums := [statusEnum, colorEnum],
    Messages := [petMessage, personMessage] }

/-- A registry that knows `pets.proto` and everything it declares. -/
def petsRegistry : descriptor.Registry :=
  { LookupMsg := fun _ name =>
      if name = ".example.Person" then .ok personMessage
      else if name = ".example.Pet" then .ok petMessage
      else .error ("no message found: " ++ name)
    LookupEnum := fun _ name =>
      if name = ".example.Status" then .ok statusEnum
      else if name = ".example.Color" then .ok colorEnum
      else .error ("no enum found: " ++ name)
    LookupFile := fun name =>
      if name = "pets.proto" then .ok petsFile else .error ("no such file given: " ++ name) }

end scenario

/-! ## Scenario: bytes, unknown kinds and enum references -/

namespace scenario

/-- The field `payload`: optional bytes. -/
def payloadField : descriptor.Field :=
  { GetName := "payload", GetType := FieldDescriptorProto_TYPE_BYTES, GetTypeName := "",
    GetLabel := FieldDescriptorProto_LABEL_OPTIONAL }

/-- The field `blob`: a kind outside the protobuf enumeration, with a raw type name. -/
def blobField : descriptor.Field :=
  { GetName := "blob", GetType := 19, GetTypeName := ".example.Opaque",
    GetLabel := FieldDescriptorProto_LABEL_OPTIONAL }

/-- The enum `A` of package `example`, whose only value is `AB`. -/
def aEnum : descriptor.Enum :=
  { FQEN := ".example.A", File := ⟨⟨"example"⟩⟩, Value := [⟨"AB"⟩] }

/-- The field `a`: an optional reference to the enum `A`. -/
def aField : descriptor.Field :=
  { GetName := "a", GetType := FieldDescriptorProto_TYPE_ENUM, GetTypeName := ".example.A",
    GetLabel := FieldDescriptorProto_LABEL_OPTIONAL }

/-- A registry that knows the enum `.example.A` only. -/
def aRegistry : descriptor.Registry :=
  { LookupMsg := fun _ name => .error ("no message found: " ++ name)
    LookupEnum := fun _ name =>
      if name = ".example.A" then .ok aEnum else .error ("no enum found: " ++ name)
    LookupFile := fun name => .error ("no such file given: " ++ name) }

/-- The message `Empty` of package `example`: no fields. -/
def emptyMessage : descriptor.Message :=
  { FQMN := ".example.Empty", File := ⟨⟨"example"⟩⟩, Fields := [] }

/-- The file `empty.proto`: neither enums nor messages. -/
def emptyFile : descriptor.File :=
  { GetName := "empty.proto", Enums := [], Messages := [] }

/-- A registry that knows `empty.proto` only. -/
def emptyRegistry : descriptor.Registry :=
  { LookupMsg := fun _ name => .error ("no message found: " ++ name)
    LookupEnum := fun _ name => .error ("no enum found: " ++ name)
    LookupFile := fun name =>
      if name = "empty.proto" then .ok emptyFile else .error ("no such file given: " ++ name) }

end scenario

/-! ## Scenario: an enum under another name, and an enum named `alias` -/

namespace scenario

/-- The enum `Palette` of package `other`, with the value names of `Color`. -/
def paletteEnum : descriptor.Enum :=
  { FQEN := ".other.Palette", File := ⟨⟨"other"⟩⟩, Value := [⟨"RED"⟩, ⟨"GREEN"⟩, ⟨"BLUE"⟩] }

/-- A registry that resolves every enum reference to `Palette`. -/
def paletteRegistry : descriptor.Registry :=
  { LookupMsg := fun _ name => .error ("no message found: " ++ name)
    LookupEnum := fun _ _ => .ok paletteEnum
    LookupFile := fun name => .error ("no such file given: " ++ name) }

/-- The enum `alias` of package `example`, whose only value is `X`. -/
def aliasEnum : descriptor.Enum :=
  { FQEN := ".example.alias", File := ⟨⟨"example"⟩⟩, Value := [⟨"X"⟩] }

/-- The file `alias.proto`: the enum `alias` and no message. -/
def aliasFile : descriptor.File :=
  { GetName := "alias.proto", Enums := [aliasEnum], Messages := [] }

/-- A registry that knows `alias.proto` and its enum. -/
def aliasRegistry : descriptor.Registry :=
  { LookupMsg := fun _ name => .error ("no message found: " ++ name)
    LookupEnum := fun _ name =>
      if name = ".example.alias" then .ok aliasEnum else .error ("no enum found: " ++ name)
    LookupFile := fun name =>
      if name = "alias.proto" then .ok aliasFile else .error ("no such file given: " ++ name) }

end scenario

/-! ## Notions used to state the properties -/

namespace spec

/-- The registry's error for a field: the error of `LookupMsg` on a message-kind field, or
of `LookupEnum` on an enum-kind field, whose type name the registry does not resolve;
`none` for every other field. -/
def fieldError (reg : descriptor.Registry) (f : descriptor.Field) : Option Error :=
  if f.GetType = FieldDescriptorProto_TYPE_MESSAGE then
    match reg.LookupMsg "" f.GetTypeName with
    | .error err => some err
    | .ok _ => none
  else if f.GetType = FieldDescriptorProto_TYPE_ENUM then
    match reg.LookupEnum "" f.GetTypeName with
    | .error err => some err
    | .ok _ => none
  else none

/-- All fields of a file's messages: message order first, then field order. -/
def fileFields (f : descriptor.File) : List descriptor.Field :=
  f.Messages.flatMap (fun m => m.Fields)

/-- The registry's error for the first field of the file that it does not resolve. -/
def firstFieldError (reg : descriptor.Registry) (f : descriptor.File) : Option Error :=
  (fileFields f).findSome? (fieldError reg)

/-- The declaration names a file must yield: its enums in file order, then its messages in
file order (functional dialect). -/
def elmNames (cfg : genelmtypes.config) (f : descriptor.File) : List String :=
  f.Enums.map (genelmtypes.enumTypeName cfg) ++ f.Messages.map (genelmtypes.messageTypeName cfg)

/-- The declaration names a file must yield: its enums in file order, then its messages in
file order (structural dialect). -/
def flowNames (cfg : genflowtypes.config) (f : descriptor.File) : List String :=
  f.Enums.map (genflowtypes.enumTypeName cfg) ++ f.Messages.map (genflowtypes.messageTypeName cfg)

/-- Functional dialect: one entry `type [alias ]name = body` per declaration, under the
names `names`, in order. -/
def elmEntries : List String → List genelmtypes.ElmType → String
  | name :: names, d :: ds =>
    "type " ++ (if d.IsTypeAlias then "alias " else "") ++ name ++ " = " ++ d.ElmType ++ "\n\n"
      ++ elmEntries names ds
  | _, _ => ""

/-- Structural dialect: one entry `export type name = body;` per declaration, under the
names `names`, in order. -/
def flowEntries : List String → List genflowtypes.FlowType → String
  | name :: names, d :: ds =>
    "export type " ++ name ++ " = " ++ d.FlowType ++ ";\n\n" ++ flowEntries names ds
  | _, _ => ""

/-- A fully-qualified name with every `.` character removed. -/
def dotless (n : String) : String :=
  ⟨n.data.filter (fun c => decide (c ≠ '.'))⟩

/-- The Name Qualifier as the specification words it: the dot-free name `s`; when
`alwaysQualify` is false and `s` starts with the package prefix `p`, `s` without that
leading `p`. -/
def qualify (n p : String) (alwaysQualify : Bool) : String :=
  if alwaysQualify then dotless n
  else if p.data <+: (dotless n).data then ⟨(dotless n).data.drop p.data.length⟩
  else dotless n

/-- The public names the four copies of the Name Qualifier in the source give an entity
with fully-qualified name `n` in a file with package prefix `p`: `messageTypeName` and
`enumTypeName` of the functional dialect, then those of the structural dialect. -/
def qualifiers (n p : String) (alwaysQualify embedEnums : Bool)
    (fields : List descriptor.Field) (values : List pbdescriptor.EnumValueDescriptorProto) :
    List String :=
  [ genelmtypes.messageTypeName ⟨alwaysQualify⟩ { FQMN := n, File := ⟨⟨p⟩⟩, Fields := fields },
    genelmtypes.enumTypeName ⟨alwaysQualify⟩ { FQEN := n, File := ⟨⟨p⟩⟩, Value := values },
    genflowtypes.messageTypeName ⟨alwaysQualify, embedEnums⟩
      { FQMN := n, File := ⟨⟨p⟩⟩, Fields := fields },
    genflowtypes.enumTypeName ⟨alwaysQualify, embedEnums⟩
      { FQEN := n, File := ⟨⟨p⟩⟩, Value := values } ]

/-- The eighteen kinds of the protobuf enumeration `FieldDescriptorProto_Type`. -/
def knownKinds : List FieldDescriptorProto_Type :=
  [ FieldDescriptorProto_TYPE_DOUBLE, FieldDescriptorProto_TYPE_FLOAT,
    FieldDescriptorProto_TYPE_INT64, FieldDescriptorProto_TYPE_UINT64,
    FieldDescriptorProto_TYPE_INT32, FieldDescriptorProto_TYPE_FIXED64,
    FieldDescriptorProto_TYPE_FIXED32, FieldDescriptorProto_TYPE_BOOL,
    FieldDescriptorProto_TYPE_STRING, FieldDescriptorProto_TYPE_GROUP,
    FieldDescriptorProto_TYPE_MESSAGE, FieldDescriptorProto_TYPE_BYTES,
    FieldDescriptorProto_TYPE_UINT32, FieldDescriptorProto_TYPE_ENUM,
    FieldDescriptorProto_TYPE_SFIXED32, FieldDescriptorProto_TYPE_SFIXED64,
    FieldDescriptorProto_TYPE_SINT32, FieldDescriptorProto_TYPE_SINT64 ]

/-- The union of an enum's value names as double-quoted literals joined by ` | `. -/
def quotedUnion (e : descriptor.Enum) : String :=
  " | ".intercalate (e.Value.map (fun v => "\"" ++ v.GetName ++ "\""))

/-- The alternatives of an enum as bare value names joined by ` | `. -/
def bareUnion (e : descriptor.Enum) : String :=
  " | ".intercalate (e.Value.map (fun v => v.GetName))

/-- Whether a declaration of the functional dialect is a record: its body is an object. -/
def isRecord : genelmtypes.namedElmType → Bool
  | .mk _ (.objectElmType _) => true
  | _ => false

/-- The entry of one declaration in the text of the functional dialect. -/
def elmEntry (d : genelmtypes.namedElmType) : String :=
  "type " ++ (if isRecord d then "alias " else "") ++ d.ElmTypeName ++ " = " ++ d.ElmType
    ++ "\n\n"

/-- The entry of one declaration in the text of the structural dialect. -/
def flowEntry (d : genflowtypes.namedFlowType) : String :=
  "export type " ++ d.FlowTypeName ++ " = " ++ d.FlowType ++ ";\n\n"

end spec

/-! ## Theorems -/

/-- C1: structural dialect scenario.  When the registry resolves the file to one enum with
public name `Status` and values `ACTIVE`, `INACTIVE`, and one message with public name
`Person` and the non-repeated fields `name` (string) and `age` (int32), `generateFlowTypes`
returns a text and no error, and the text contains both expected declarations. -/
theorem c1_flow_scenario
    (file : descriptor.File) (registry : descriptor.Registry) (qualifyTypes embedEnums : Bool)
    (f : descriptor.File) (e : descriptor.Enum) (m : descriptor.Message)
    (f1 f2 : descriptor.Field)
    (hfile : registry.LookupFile file.GetName = .ok f)
    (henums : f.Enums = [e]) (hmsgs : f.Messages = [m])
    (hename : genflowtypes.enumTypeName ⟨qualifyTypes, embedEnums⟩ e = "Status")
    (hvalues : e.Value = [⟨"ACTIVE"⟩, ⟨"INACTIVE"⟩])
    (hmname : genflowtypes.messageTypeName ⟨qualifyTypes, embedEnums⟩ m = "Person")
    (hfields : m.Fields = [f1, f2])
    (hname1 : f1.GetName = "name") (htype1 : f1.GetType = FieldDescriptorProto_TYPE_STRING)
    (hlabel1 : f1.GetLabel ≠ FieldDescriptorProto_LABEL_REPEATED)
    (hname2 : f2.GetName = "age") (htype2 : f2.GetType = FieldDescriptorProto_TYPE_INT32)
    (hlabel2 : f2.GetLabel ≠ FieldDescriptorProto_LABEL_REPEATED) :
    ∃ text : String,
      genflowtypes.generateFlowTypes file registry qualifyTypes embedEnums = (text, none)
      ∧ "export type Person = \x7b\n  name?: string,\n  age?: number\n\x7d;".data <:+: text.data
      ∧ "export type Status = \"ACTIVE\" | \"INACTIVE\";".data <:+: text.data := by
  refine ⟨"/* @flow */\nexport type Status = \"ACTIVE\" | \"INACTIVE\";\n\nexport type Person = \x7b\n  name?: string,\n  age?: number\n\x7d;\n\n", ?_, by decide, by decide⟩
  have hb1 : genflowtypes.fieldToType.base ⟨qualifyTypes, embedEnums⟩ f1 registry
      = .ok (.simpleFlowType "string") := by
    simp [genflowtypes.fieldToType.base, htype1]
  have hb2 : genflowtypes.fieldToType.base ⟨qualifyTypes, embedEnums⟩ f2 registry
      = .ok (.simpleFlowType "number") := by
    simp [genflowtypes.fieldToType.base, htype2]
  simp only [genflowtypes.generateFlowTypes, hfile, henums, hmsgs,
    genflowtypes.generateFlowTypes.enums, genflowtypes.generateFlowTypes.messages,
    genflowtypes.enumToFlowType, hename, hvalues, genflowtypes.messageToFlowType, hmname,
    hfields, genflowtypes.messageToFlowType.loop, genflowtypes.fieldToType, hb1, hb2,
    hname1, hname2, if_neg hlabel1, if_neg hlabel2, List.nil_append, List.cons_append,
    genflowtypes.template.Execute, genflowtypes.template.range,
    genflowtypes.FlowType.FlowTypeName?, genflowtypes.namedFlowType.FlowTypeName,
    genflowtypes.FlowType.FlowType, genflowtypes.namedFlowType.FlowType,
    genflowtypes.objectFlowType.fields, List.map, strings.Join]
  decide

/-- Witness of C1: the file `person.proto` of the scenario. -/
theorem c1_flow_scenario_witness :
    ∃ text : String,
      genflowtypes.generateFlowTypes scenario.personFile scenario.personRegistry false false
        = (text, none)
      ∧ "export type Person = \x7b\n  name?: string,\n  age?: number\n\x7d;".data <:+: text.data
      ∧ "export type Status = \"ACTIVE\" | \"INACTIVE\";".data <:+: text.data :=
  c1_flow_scenario scenario.personFile scenario.personRegistry false false
    scenario.personFile scenario.statusEnum scenario.personMessage
    scenario.nameField scenario.ageField
    rfl rfl rfl (by decide) rfl (by decide) rfl rfl rfl (by decide) rfl rfl (by decide)

/-- C2, as stated, fails: on the scenario file `generateElmTypes` succeeds, but its text puts
a space, not a line break, between `=` and the opening brace of `Person`. -/
theorem c2_elm_scenario_counterexample :
    genelmtypes.generateElmTypes scenario.personFile scenario.personRegistry false
      = ("-- this is a generated file\ntype Status = ACTIVE | INACTIVE\n\ntype alias Person = \x7b\n  name: Maybe String,\n  age: Maybe Int\n\x7d\n\n", none)
    ∧ ¬ "type alias Person =\n\x7b\n  name: Maybe String,\n  age: Maybe Int\n\x7d".data
        <:+: (genelmtypes.generateElmTypes scenario.personFile scenario.personRegistry false).1.data := by
  have h : genelmtypes.generateElmTypes scenario.personFile scenario.personRegistry false
      = ("-- this is a generated file\ntype Status = ACTIVE | INACTIVE\n\ntype alias Person = \x7b\n  name: Maybe String,\n  age: Maybe Int\n\x7d\n\n", none) := by
    decide
  refine ⟨h, ?_⟩
  rw [h]
  decide

/-- C2, amended: functional dialect scenario.  Under the hypotheses of the scenario
`generateElmTypes` returns a text and no error; the text contains the record declaration
of `Person` with a single space between `=` and the opening brace, and the declaration
`type Status = ACTIVE | INACTIVE`. -/
theorem c2_elm_scenario
    (file : descriptor.File) (registry : descriptor.Registry) (qualifyTypes : Bool)
    (f : descriptor.File) (e : descriptor.Enum) (m : descriptor.Message)
    (f1 f2 : descriptor.Field)
    (hfile : registry.LookupFile file.GetName = .ok f)
    (henums : f.Enums = [e]) (hmsgs : f.Messages = [m])
    (hename : genelmtypes.enumTypeName ⟨qualifyTypes⟩ e = "Status")
    (hvalues : e.Value = [⟨"ACTIVE"⟩, ⟨"INACTIVE"⟩])
    (hmname : genelmtypes.messageTypeName ⟨qualifyTypes⟩ m = "Person")
    (hfields : m.Fields = [f1, f2])
    (hname1 : f1.GetName = "name") (htype1 : f1.GetType = FieldDescriptorProto_TYPE_STRING)
    (hlabel1 : f1.GetLabel ≠ FieldDescriptorProto_LABEL_REPEATED)
    (hname2 : f2.GetName = "age") (htype2 : f2.GetType = FieldDescriptorProto_TYPE_INT32)
    (hlabel2 : f2.GetLabel ≠ FieldDescriptorProto_LABEL_REPEATED) :
    ∃ text : String,
      genelmtypes.generateElmTypes file registry qualifyTypes = (text, none)
      ∧ "type alias Person = \x7b\n  name: Maybe String,\n  age: Maybe Int\n\x7d".data
          <:+: text.data
      ∧ "type Status = ACTIVE | INACTIVE".data <:+: text.data := by
  refine ⟨"-- this is a generated file\ntype Status = ACTIVE | INACTIVE\n\ntype alias Person = \x7b\n  name: Maybe String,\n  age: Maybe Int\n\x7d\n\n", ?_, by decide, by decide⟩
  have hb1 : genelmtypes.fieldToType.base ⟨qualifyTypes⟩ f1 registry
      = .ok (.simpleElmType "String") := by
    simp [genelmtypes.fieldToType.base, htype1]
  have hb2 : genelmtypes.fieldToType.base ⟨qualifyTypes⟩ f2 registry
      = .ok (.simpleElmType "Int") := by
    simp [genelmtypes.fieldToType.base, htype2]
  simp only [genelmtypes.generateElmTypes, hfile, henums, hmsgs,
    genelmtypes.generateElmTypes.enums, genelmtypes.generateElmTypes.messages,
    genelmtypes.enumToElmType, hename, hvalues, genelmtypes.messageToElmType, hmname,
    hfields, genelmtypes.messageToElmType.loop, genelmtypes.fieldToType, hb1, hb2,
    hname1, hname2, if_neg hlabel1, if_neg hlabel2, List.nil_append, List.cons_append,
    genelmtypes.template.Execute, genelmtypes.template.range,
    genelmtypes.ElmType.ElmTypeName?, genelmtypes.namedElmType.ElmTypeName,
    genelmtypes.ElmType.ElmType, genelmtypes.namedElmType.ElmType,
    genelmtypes.ElmType.IsTypeAlias, genelmtypes.namedElmType.IsTypeAlias,
    genelmtypes.objectElmType.fields, List.map, strings.Join]
  decide

/-- Witness of C2 (amended): the file `person.proto` of the scenario. -/
theorem c2_elm_scenario_witness :
    ∃ text : String,
      genelmtypes.generateElmTypes scenario.personFile scenario.personRegistry false
        = (text, none)
      ∧ "type alias Person = \x7b\n  name: Maybe String,\n  age: Maybe Int\n\x7d".data
          <:+: text.data
      ∧ "type Status = ACTIVE | INACTIVE".data <:+: text.data :=
  c2_elm_scenario scenario.personFile scenario.personRegistry false
    scenario.personFile scenario.statusEnum scenario.personMessage
    scenario.nameField scenario.ageField
    rfl rfl rfl (by decide) rfl (by decide) rfl rfl rfl (by decide) rfl rfl (by decide)

/-! ### Field mapping fails exactly on an unresolved reference -/

theorem elm_fieldToType_of_fieldError_none (cfg : genelmtypes.config)
    (reg : descriptor.Registry) (g : descriptor.Field)
    (h : spec.fieldError reg g = none) :
    ∃ t, genelmtypes.fieldToType cfg g reg = .ok t := by
  unfold spec.fieldError at h
  unfold genelmtypes.fieldToType genelmtypes.fieldToType.base
  by_cases hm : g.GetType = FieldDescriptorProto_TYPE_MESSAGE
  · simp only [hm, if_true] at h
    cases hl : reg.LookupMsg "" g.GetTypeName with
    | error err => simp [hl] at h
    | ok ft => simp [hm, hl]
  · by_cases he : g.GetType = FieldDescriptorProto_TYPE_ENUM
    · simp only [he, if_true] at h
      cases hl : reg.LookupEnum "" g.GetTypeName with
      | error err => simp [hl] at h
      | ok e => simp [he, hl]
    · simp only [hm, he, if_false]
      split_ifs <;> exact ⟨_, rfl⟩

theorem elm_fieldToType_of_fieldError_some (cfg : genelmtypes.config)
    (reg : descriptor.Registry) (g : descriptor.Field) (err : Error)
    (h : spec.fieldError reg g = some err) :
    genelmtypes.fieldToType cfg g reg = .error err := by
  unfold spec.fieldError at h
  unfold genelmtypes.fieldToType genelmtypes.fieldToType.base
  by_cases hm : g.GetType = FieldDescriptorProto_TYPE_MESSAGE
  · simp only [hm, if_true] at h
    cases hl : reg.LookupMsg "" g.GetTypeName with
    | error err1 =>
      simp only [hl, Option.some.injEq] at h
      simp [hm, hl, h]
    | ok ft => simp [hl] at h
  · by_cases he : g.GetType = FieldDescriptorProto_TYPE_ENUM
    · simp only [he, if_true] at h
      cases hl : reg.LookupEnum "" g.GetTypeName with
      | error err1 =>
        simp only [hl] at h
        simp at h
        simp [he, hl, h]
      | ok e => simp [hl] at h
    · rw [if_neg hm, if_neg he] at h
      exact absurd h (by simp)

theorem flow_fieldToType_of_fieldError_none (cfg : genflowtypes.config)
    (reg : descriptor.Registry) (g : descriptor.Field)
    (h : spec.fieldError reg g = none) :
    ∃ t, genflowtypes.fieldToType cfg g reg = .ok t := by
  unfold spec.fieldError at h
  unfold genflowtypes.fieldToType genflowtypes.fieldToType.base
  by_cases hm : g.GetType = FieldDescriptorProto_TYPE_MESSAGE
  · simp only [hm, if_true] at h
    cases hl : reg.LookupMsg "" g.GetTypeName with
    | error err => simp [hl] at h
    | ok ft => simp [hm, hl]
  · by_cases he : g.GetType = FieldDescriptorProto_TYPE_ENUM
    · simp only [he, if_true] at h
      cases hl : reg.LookupEnum "" g.GetTypeName with
      | error err => simp [hl] at h
      | ok e =>
        cases hemb : cfg.embedEnums <;> simp [he, hl, hemb, genflowtypes.enumToFlowType]
    · simp only [hm, he, if_false]
      split_ifs <;> exact ⟨_, rfl⟩

theorem flow_fieldToType_of_fieldError_some (cfg : genflowtypes.config)
    (reg : descriptor.Registry) (g : descriptor.Field) (err : Error)
    (h : spec.fieldError reg g = some err) :
    genflowtypes.fieldToType cfg g reg = .error err := by
  unfold spec.fieldError at h
  unfold genflowtypes.fieldToType genflowtypes.fieldToType.base
  by_cases hm : g.GetType = FieldDescriptorProto_TYPE_MESSAGE
  · simp only [hm, if_true] at h
    cases hl : reg.LookupMsg "" g.GetTypeName with
    | error err1 =>
      simp only [hl, Option.some.injEq] at h
      simp [hm, hl, h]
    | ok ft => simp [hl] at h
  · by_cases he : g.GetType = FieldDescriptorProto_TYPE_ENUM
    · simp only [he, if_true] at h
      cases hl : reg.LookupEnum "" g.GetTypeName with
      | error err1 =>
        simp only [hl] at h
        simp at h
        simp [he, hl, h]
      | ok e => simp [hl] at h
    · rw [if_neg hm, if_neg he] at h
      exact absurd h (by simp)

/-! ### The loops stop at the first failing field -/

theorem elm_loop_error (cfg : genelmtypes.config) (reg : descriptor.Registry)
    (err : Error) : ∀ (fs : List descriptor.Field) (acc : List genelmtypes.namedElmType),
    fs.findSome? (spec.fieldError reg) = some err →
    genelmtypes.messageToElmType.loop cfg reg fs acc = .error err := by
  intro fs
  induction fs with
  | nil => intro acc h; simp at h
  | cons g rest ih =>
    intro acc h
    rw [List.findSome?_cons] at h
    cases hg : spec.fieldError reg g with
    | some e =>
      rw [hg] at h
      simp only [Option.some.injEq] at h
      subst h
      simp [genelmtypes.messageToElmType.loop,
        elm_fieldToType_of_fieldError_some cfg reg g e hg]
    | none =>
      rw [hg] at h
      obtain ⟨t, ht⟩ := elm_fieldToType_of_fieldError_none cfg reg g hg
      simp only [genelmtypes.messageToElmType.loop, ht]
      exact ih _ h

theorem elm_loop_ok (cfg : genelmtypes.config) (reg : descriptor.Registry) :
    ∀ (fs : List descriptor.Field) (acc : List genelmtypes.namedElmType),
    fs.findSome? (spec.fieldError reg) = none →
    ∃ r, genelmtypes.messageToElmType.loop cfg reg fs acc = .ok r := by
  intro fs
  induction fs with
  | nil => intro acc _; exact ⟨acc, rfl⟩
  | cons g rest ih =>
    intro acc h
    rw [List.findSome?_cons] at h
    cases hg : spec.fieldError reg g with
    | some e => rw [hg] at h; simp at h
    | none =>
      rw [hg] at h
      obtain ⟨t, ht⟩ := elm_fieldToType_of_fieldError_none cfg reg g hg
      simp only [genelmtypes.messageToElmType.loop, ht]
      exact ih _ h

theorem elm_messages_error (cfg : genelmtypes.config) (reg : descriptor.Registry)
    (err : Error) : ∀ (ms : List descriptor.Message) (result : List genelmtypes.ElmType),
    (ms.flatMap (fun m => m.Fields)).findSome? (spec.fieldError reg) = some err →
    genelmtypes.generateElmTypes.messages cfg reg ms result = .error err := by
  intro ms
  induction ms with
  | nil => intro result h; simp at h
  | cons m rest ih =>
    intro result h
    rw [List.flatMap_cons, List.findSome?_append] at h
    cases hm : m.Fields.findSome? (spec.fieldError reg) with
    | some e =>
      rw [hm] at h
      simp only [Option.or_some, Option.some.injEq] at h
      subst h
      simp [genelmtypes.generateElmTypes.messages, genelmtypes.messageToElmType,
        elm_loop_error cfg reg e m.Fields [] hm]
    | none =>
      rw [hm] at h
      simp only [Option.none_or] at h
      obtain ⟨r, hr⟩ := elm_loop_ok cfg reg m.Fields [] hm
      simp only [genelmtypes.generateElmTypes.messages, genelmtypes.messageToElmType, hr]
      exact ih _ h

theorem elm_enums_ok (cfg : genelmtypes.config) (reg : descriptor.Registry) :
    ∀ (es : List descriptor.Enum) (result : List genelmtypes.ElmType),
    ∃ r, genelmtypes.generateElmTypes.enums cfg reg es result = .ok r := by
  intro es
  induction es with
  | nil => intro result; exact ⟨result, rfl⟩
  | cons e rest ih =>
    intro result
    simp only [genelmtypes.generateElmTypes.enums, genelmtypes.enumToElmType]
    exact ih _

theorem flow_loop_error (cfg : genflowtypes.config) (reg : descriptor.Registry)
    (err : Error) : ∀ (fs : List descriptor.Field) (acc : List genflowtypes.namedFlowType),
    fs.findSome? (spec.fieldError reg) = some err →
    genflowtypes.messageToFlowType.loop cfg reg fs acc = .error err := by
  intro fs
  induction fs with
  | nil => intro acc h; simp at h
  | cons g rest ih =>
    intro acc h
    rw [List.findSome?_cons] at h
    cases hg : spec.fieldError reg g with
    | some e =>
      rw [hg] at h
      simp only [Option.some.injEq] at h
      subst h
      simp [genflowtypes.messageToFlowType.loop,
        flow_fieldToType_of_fieldError_some cfg reg g e hg]
    | none =>
      rw [hg] at h
      obtain ⟨t, ht⟩ := flow_fieldToType_of_fieldError_none cfg reg g hg
      simp only [genflowtypes.messageToFlowType.loop, ht]
      exact ih _ h

theorem flow_loop_ok (cfg : genflowtypes.config) (reg : descriptor.Registry) :
    ∀ (fs : List descriptor.Field) (acc : List genflowtypes.namedFlowType),
    fs.findSome? (spec.fieldError reg) = none →
    ∃ r, genflowtypes.messageToFlowType.loop cfg reg fs acc = .ok r := by
  intro fs
  induction fs with
  | nil => intro acc _; exact ⟨acc, rfl⟩
  | cons g rest ih =>
    intro acc h
    rw [List.findSome?_cons] at h
    cases hg : spec.fieldError reg g with
    | some e => rw [hg] at h; simp at h
    | none =>
      rw [hg] at h
      obtain ⟨t, ht⟩ := flow_fieldToType_of_fieldError_none cfg reg g hg
      simp only [genflowtypes.messageToFlowType.loop, ht]
      exact ih _ h

theorem flow_messages_error (cfg : genflowtypes.config) (reg : descriptor.Registry)
    (err : Error) : ∀ (ms : List descriptor.Message) (result : List genflowtypes.FlowType),
    (ms.flatMap (fun m => m.Fields)).findSome? (spec.fieldError reg) = some err →
    genflowtypes.generateFlowTypes.messages cfg reg ms result = .error err := by
  intro ms
  induction ms with
  | nil => intro result h; simp at h
  | cons m rest ih =>
    intro result h
    rw [List.flatMap_cons, List.findSome?_append] at h
    cases hm : m.Fields.findSome? (spec.fieldError reg) with
    | some e =>
      rw [hm] at h
      simp only [Option.or_some, Option.some.injEq] at h
      subst h
      simp [genflowtypes.generateFlowTypes.messages, genflowtypes.messageToFlowType,
        flow_loop_error cfg reg e m.Fields [] hm]
    | none =>
      rw [hm] at h
      simp only [Option.none_or] at h
      obtain ⟨r, hr⟩ := flow_loop_ok cfg reg m.Fields [] hm
      simp only [genflowtypes.generateFlowTypes.messages, genflowtypes.messageToFlowType, hr]
      exact ih _ h

theorem flow_enums_ok (cfg : genflowtypes.config) (reg : descriptor.Registry) :
    ∀ (es : List descriptor.Enum) (result : List genflowtypes.FlowType),
    ∃ r, genflowtypes.generateFlowTypes.enums cfg reg es result = .ok r := by
  intro es
  induction es with
  | nil => intro result; exact ⟨result, rfl⟩
  | cons e rest ih =>
    intro result
    simp only [genflowtypes.generateFlowTypes.enums, genflowtypes.enumToFlowType]
    exact ih _

/-- C3: fail-fast with no partial output.  If the registry resolves the file and some field
of one of its messages is a message-kind or enum-kind field whose type name the registry
does not resolve, then both generators return the empty text together with an error, and
that error is the registry's error for the first such field in message order, then field
order. -/
theorem c3_fail_fast
    (file : descriptor.File) (registry : descriptor.Registry) (qualifyTypes embedEnums : Bool)
    (f : descriptor.File)
    (hfile : registry.LookupFile file.GetName = .ok f)
    (hbad : ∃ m ∈ f.Messages, ∃ g ∈ m.Fields, spec.fieldError registry g ≠ none) :
    ∃ err, spec.firstFieldError registry f = some err
      ∧ genelmtypes.generateElmTypes file registry qualifyTypes = ("", some err)
      ∧ genflowtypes.generateFlowTypes file registry qualifyTypes embedEnums
          = ("", some err) := by
  obtain ⟨m, hm, g, hg, hne⟩ := hbad
  have hsome : (spec.firstFieldError registry f).isSome = true := by
    unfold spec.firstFieldError spec.fileFields
    rw [List.findSome?_isSome_iff]
    refine ⟨g, List.mem_flatMap.mpr ⟨m, hm, hg⟩, ?_⟩
    cases hfe : spec.fieldError registry g with
    | none => exact absurd hfe hne
    | some e => rfl
  obtain ⟨err, herr⟩ := Option.isSome_iff_exists.mp hsome
  refine ⟨err, herr, ?_, ?_⟩
  · obtain ⟨r, hr⟩ := elm_enums_ok ⟨qualifyTypes⟩ registry f.Enums []
    simp only [genelmtypes.generateElmTypes, hfile, hr,
      elm_messages_error ⟨qualifyTypes⟩ registry err f.Messages r herr]
  · obtain ⟨r, hr⟩ := flow_enums_ok ⟨qualifyTypes, embedEnums⟩ registry f.Enums []
    simp only [genflowtypes.generateFlowTypes, hfile, hr,
      flow_messages_error ⟨qualifyTypes, embedEnums⟩ registry err f.Messages r herr]

/-- Witness of C3: in `order.proto` the field `customer` of `Order` is the first unresolved
one; both generators return the empty text and the registry's error for it. -/
theorem c3_fail_fast_witness :
    (∃ m ∈ scenario.orderFile.Messages, ∃ g ∈ m.Fields,
        spec.fieldError scenario.orderRegistry g ≠ none)
    ∧ ∃ err, spec.firstFieldError scenario.orderRegistry scenario.orderFile = some err
      ∧ genelmtypes.generateElmTypes scenario.orderFile scenario.orderRegistry false
          = ("", some err)
      ∧ genflowtypes.generateFlowTypes scenario.orderFile scenario.orderRegistry false true
          = ("", some err) :=
  have hbad : ∃ m ∈ scenario.orderFile.Messages, ∃ g ∈ m.Fields,
      spec.fieldError scenario.orderRegistry g ≠ none :=
    ⟨scenario.orderMessage, by simp [scenario.orderFile], scenario.stateField,
      by simp [scenario.orderMessage], by decide⟩
  ⟨hbad, c3_fail_fast scenario.orderFile scenario.orderRegistry false true
    scenario.orderFile rfl hbad⟩

/-! ### Shape of the declaration sequence -/

theorem elm_enums_eq (cfg : genelmtypes.config) (reg : descriptor.Registry) :
    ∀ (es : List descriptor.Enum) (result : List genelmtypes.ElmType),
    genelmtypes.generateElmTypes.enums cfg reg es result
      = .ok (result ++ es.map (fun e => .named (.mk (genelmtypes.enumTypeName cfg e)
          (.simpleElmType (strings.Join (e.Value.map (fun v => v.GetName)) " | "))))) := by
  intro es
  induction es with
  | nil => intro result; simp [genelmtypes.generateElmTypes.enums]
  | cons e rest ih =>
    intro result
    simp only [genelmtypes.generateElmTypes.enums, genelmtypes.enumToElmType, ih,
      List.map_cons, List.append_assoc, List.singleton_append]

theorem elm_messageToElmType_ok (cfg : genelmtypes.config)
    (reg : descriptor.Registry) (m : descriptor.Message) (d : genelmtypes.ElmType)
    (h : genelmtypes.messageToElmType cfg m reg = .ok d) :
    ∃ Fields, genelmtypes.messageToElmType.loop cfg reg m.Fields [] = .ok Fields
      ∧ d = .named (.mk (genelmtypes.messageTypeName cfg m) (.objectElmType Fields)) := by
  unfold genelmtypes.messageToElmType at h
  cases hl : genelmtypes.messageToElmType.loop cfg reg m.Fields [] with
  | error err => rw [hl] at h; cases h
  | ok Fields =>
    rw [hl] at h
    simp only [Except.ok.injEq] at h
    exact ⟨Fields, rfl, h.symm⟩

theorem elm_messages_ok (cfg : genelmtypes.config) (reg : descriptor.Registry) :
    ∀ (ms : List descriptor.Message) (result r : List genelmtypes.ElmType),
    genelmtypes.generateElmTypes.messages cfg reg ms result = .ok r →
    ∃ ds, r = result ++ ds
      ∧ List.Forall₂ (fun m d => genelmtypes.messageToElmType cfg m reg = .ok d) ms ds := by
  intro ms
  induction ms with
  | nil =>
    intro result r h
    simp only [genelmtypes.generateElmTypes.messages, Except.ok.injEq] at h
    exact ⟨[], by simp [h], List.Forall₂.nil⟩
  | cons m rest ih =>
    intro result r h
    unfold genelmtypes.generateElmTypes.messages at h
    cases hm : genelmtypes.messageToElmType cfg m reg with
    | error err => rw [hm] at h; cases h
    | ok t =>
      rw [hm] at h
      obtain ⟨ds, hr, hds⟩ := ih _ _ h
      exact ⟨t :: ds, by simp [hr], List.Forall₂.cons hm hds⟩

theorem elm_range_eq_elmEntries :
    ∀ (ds : List genelmtypes.ElmType) (names : List String),
    ds.map genelmtypes.ElmType.ElmTypeName? = names.map some →
    genelmtypes.template.range ds = .ok (spec.elmEntries names ds) := by
  intro ds
  induction ds with
  | nil =>
    intro names h
    cases names with
    | nil => rfl
    | cons n ns => simp at h
  | cons d rest ih =>
    intro names h
    cases names with
    | nil => simp at h
    | cons n ns =>
      simp only [List.map_cons, List.cons.injEq] at h
      simp only [genelmtypes.template.range, h.1, ih ns h.2, spec.elmEntries]

theorem elm_messages_names (cfg : genelmtypes.config) (reg : descriptor.Registry) :
    ∀ (ms : List descriptor.Message) (ds : List genelmtypes.ElmType),
    List.Forall₂ (fun m d => genelmtypes.messageToElmType cfg m reg = .ok d) ms ds →
    ds.map genelmtypes.ElmType.ElmTypeName?
      = (ms.map (genelmtypes.messageTypeName cfg)).map some := by
  intro ms ds h
  induction h with
  | nil => rfl
  | cons hm _ ih =>
    obtain ⟨Fields, _, hd⟩ := elm_messageToElmType_ok cfg reg _ _ hm
    simp [ih, hd, genelmtypes.ElmType.ElmTypeName?, genelmtypes.namedElmType.ElmTypeName]

theorem flow_enums_eq (cfg : genflowtypes.config) (reg : descriptor.Registry) :
    ∀ (es : List descriptor.Enum) (result : List genflowtypes.FlowType),
    genflowtypes.generateFlowTypes.enums cfg reg es result
      = .ok (result ++ es.map (fun e => .named (.mk (genflowtypes.enumTypeName cfg e)
          (.simpleFlowType
            (strings.Join (e.Value.map (fun v => "\"" ++ v.GetName ++ "\"")) " | "))))) := by
  intro es
  induction es with
  | nil => intro result; simp [genflowtypes.generateFlowTypes.enums]
  | cons e rest ih =>
    intro result
    simp only [genflowtypes.generateFlowTypes.enums, genflowtypes.enumToFlowType, ih,
      List.map_cons, List.append_assoc, List.singleton_append]

theorem flow_messageToFlowType_ok (cfg : genflowtypes.config)
    (reg : descriptor.Registry) (m : descriptor.Message) (d : genflowtypes.FlowType)
    (h : genflowtypes.messageToFlowType cfg m reg = .ok d) :
    ∃ Fields, genflowtypes.messageToFlowType.loop cfg reg m.Fields [] = .ok Fields
      ∧ d = .named (.mk (genflowtypes.messageTypeName cfg m) (.objectFlowType Fields)) := by
  unfold genflowtypes.messageToFlowType at h
  cases hl : genflowtypes.messageToFlowType.loop cfg reg m.Fields [] with
  | error err => rw [hl] at h; cases h
  | ok Fields =>
    rw [hl] at h
    simp only [Except.ok.injEq] at h
    exact ⟨Fields, rfl, h.symm⟩

theorem flow_messages_ok (cfg : genflowtypes.config) (reg : descriptor.Registry) :
    ∀ (ms : List descriptor.Message) (result r : List genflowtypes.FlowType),
    genflowtypes.generateFlowTypes.messages cfg reg ms result = .ok r →
    ∃ ds, r = result ++ ds
      ∧ List.Forall₂ (fun m d => genflowtypes.messageToFlowType cfg m reg = .ok d) ms ds := by
  intro ms
  induction ms with
  | nil =>
    intro result r h
    simp only [genflowtypes.generateFlowTypes.messages, Except.ok.injEq] at h
    exact ⟨[], by simp [h], List.Forall₂.nil⟩
  | cons m rest ih =>
    intro result r h
    unfold genflowtypes.generateFlowTypes.messages at h
    cases hm : genflowtypes.messageToFlowType cfg m reg with
    | error err => rw [hm] at h; cases h
    | ok t =>
      rw [hm] at h
      obtain ⟨ds, hr, hds⟩ := ih _ _ h
      exact ⟨t :: ds, by simp [hr], List.Forall₂.cons hm hds⟩

theorem flow_range_eq_flowEntries :
    ∀ (ds : List genflowtypes.FlowType) (names : List String),
    ds.map genflowtypes.FlowType.FlowTypeName? = names.map some →
    genflowtypes.template.range ds = .ok (spec.flowEntries names ds) := by
  intro ds
  induction ds with
  | nil =>
    intro names h
    cases names with
    | nil => rfl
    | cons n ns => simp at h
  | cons d rest ih =>
    intro names h
    cases names with
    | nil => simp at h
    | cons n ns =>
      simp only [List.map_cons, List.cons.injEq] at h
      simp only [genflowtypes.template.range, h.1, ih ns h.2, spec.flowEntries]

theorem flow_messages_names (cfg : genflowtypes.config) (reg : descriptor.Registry) :
    ∀ (ms : List descriptor.Message) (ds : List genflowtypes.FlowType),
    List.Forall₂ (fun m d => genflowtypes.messageToFlowType cfg m reg = .ok d) ms ds →
    ds.map genflowtypes.FlowType.FlowTypeName?
      = (ms.map (genflowtypes.messageTypeName cfg)).map some := by
  intro ms ds h
  induction h with
  | nil => rfl
  | cons hm _ ih =>
    obtain ⟨Fields, _, hd⟩ := flow_messageToFlowType_ok cfg reg _ _ hm
    simp [ih, hd, genflowtypes.FlowType.FlowTypeName?, genflowtypes.namedFlowType.FlowTypeName]

theorem elm_enums_forall2 (cfg : genelmtypes.config) (reg : descriptor.Registry)
    (es : List descriptor.Enum) :
    List.Forall₂ (fun e d => genelmtypes.enumToElmType cfg e reg = .ok d) es
      (es.map (fun e => .named (.mk (genelmtypes.enumTypeName cfg e)
        (.simpleElmType (strings.Join (e.Value.map (fun v => v.GetName)) " | "))))) := by
  induction es with
  | nil => exact List.Forall₂.nil
  | cons e rest ih => exact List.Forall₂.cons rfl ih

theorem flow_enums_forall2 (cfg : genflowtypes.config) (reg : descriptor.Registry)
    (es : List descriptor.Enum) :
    List.Forall₂ (fun e d => genflowtypes.enumToFlowType cfg e reg = .ok d) es
      (es.map (fun e => .named (.mk (genflowtypes.enumTypeName cfg e)
        (.simpleFlowType
          (strings.Join (e.Value.map (fun v => "\"" ++ v.GetName ++ "\"")) " | "))))) := by
  induction es with
  | nil => exact List.Forall₂.nil
  | cons e rest ih => exact List.Forall₂.cons rfl ih

/-- C4: declaration order.  Whenever a generator succeeds on a file the registry resolves,
the slice its two loops build is `eds ++ mds`, where `eds` holds, enum by enum in file
order, the declaration `enumToElmType` / `enumToFlowType` builds for that enum, and `mds`
holds, message by message in file order, the declaration `messageToElmType` /
`messageToFlowType` builds for that message.  The names of that slice are the public names
of the enums followed by those of the messages, and the text is the banner followed by
one entry per element of the slice, in order, under these names: nothing is sorted,
dropped or duplicated. -/
theorem c4_declaration_order
    (file : descriptor.File) (registry : descriptor.Registry) (qualifyTypes embedEnums : Bool)
    (f : descriptor.File)
    (hfile : registry.LookupFile file.GetName = .ok f) :
    (∀ text, genelmtypes.generateElmTypes file registry qualifyTypes = (text, none) →
      ∃ eds mds : List genelmtypes.ElmType,
        List.Forall₂ (fun e d => genelmtypes.enumToElmType ⟨qualifyTypes⟩ e registry = .ok d)
          f.Enums eds
        ∧ List.Forall₂
          (fun m d => genelmtypes.messageToElmType ⟨qualifyTypes⟩ m registry = .ok d)
          f.Messages mds
        ∧ (∃ r0, genelmtypes.generateElmTypes.enums ⟨qualifyTypes⟩ registry f.Enums []
              = .ok r0
          ∧ genelmtypes.generateElmTypes.messages ⟨qualifyTypes⟩ registry f.Messages r0
              = .ok (eds ++ mds))
        ∧ (eds ++ mds).map genelmtypes.ElmType.ElmTypeName?
            = (spec.elmNames ⟨qualifyTypes⟩ f).map some
        ∧ text = "-- this is a generated file\n"
            ++ spec.elmEntries (spec.elmNames ⟨qualifyTypes⟩ f) (eds ++ mds))
    ∧ (∀ text,
        genflowtypes.generateFlowTypes file registry qualifyTypes embedEnums = (text, none) →
      ∃ eds mds : List genflowtypes.FlowType,
        List.Forall₂
          (fun e d => genflowtypes.enumToFlowType ⟨qualifyTypes, embedEnums⟩ e registry
            = .ok d) f.Enums eds
        ∧ List.Forall₂
          (fun m d => genflowtypes.messageToFlowType ⟨qualifyTypes, embedEnums⟩ m registry
            = .ok d) f.Messages mds
        ∧ (∃ r0, genflowtypes.generateFlowTypes.enums ⟨qualifyTypes, embedEnums⟩ registry
              f.Enums [] = .ok r0
          ∧ genflowtypes.generateFlowTypes.messages ⟨qualifyTypes, embedEnums⟩ registry
              f.Messages r0 = .ok (eds ++ mds))
        ∧ (eds ++ mds).map genflowtypes.FlowType.FlowTypeName?
            = (spec.flowNames ⟨qualifyTypes, embedEnums⟩ f).map some
        ∧ text = "/* @flow */\n"
            ++ spec.flowEntries (spec.flowNames ⟨qualifyTypes, embedEnums⟩ f) (eds ++ mds)) := by
  constructor
  · intro text h
    simp only [genelmtypes.generateElmTypes, hfile, elm_enums_eq,
      List.nil_append] at h
    cases hm : genelmtypes.generateElmTypes.messages ⟨qualifyTypes⟩ registry f.Messages
        (f.Enums.map (fun e => .named (.mk (genelmtypes.enumTypeName ⟨qualifyTypes⟩ e)
          (.simpleElmType (strings.Join (e.Value.map (fun v => v.GetName)) " | "))))) with
    | error err => rw [hm] at h; simp at h
    | ok r =>
      rw [hm] at h
      obtain ⟨ds, hr, hds⟩ := elm_messages_ok _ _ _ _ _ hm
      have hnames : r.map genelmtypes.ElmType.ElmTypeName?
          = (spec.elmNames ⟨qualifyTypes⟩ f).map some := by
        rw [hr, List.map_append, elm_messages_names _ _ _ _ hds]
        simp [spec.elmNames, genelmtypes.ElmType.ElmTypeName?,
          genelmtypes.namedElmType.ElmTypeName, Function.comp_def]
      simp only [genelmtypes.template.Execute,
        elm_range_eq_elmEntries r _ hnames, Prod.mk.injEq, and_true] at h
      subst hr
      exact ⟨_, ds, elm_enums_forall2 _ _ _, hds,
        ⟨_, elm_enums_eq _ _ _ _, by rw [List.nil_append]; exact hm⟩, hnames, h.symm⟩
  · intro text h
    simp only [genflowtypes.generateFlowTypes, hfile, flow_enums_eq,
      List.nil_append] at h
    cases hm : genflowtypes.generateFlowTypes.messages ⟨qualifyTypes, embedEnums⟩ registry
        f.Messages
        (f.Enums.map (fun e => .named (.mk
          (genflowtypes.enumTypeName ⟨qualifyTypes, embedEnums⟩ e)
          (.simpleFlowType
            (strings.Join (e.Value.map (fun v => "\"" ++ v.GetName ++ "\"")) " | "))))) with
    | error err => rw [hm] at h; simp at h
    | ok r =>
      rw [hm] at h
      obtain ⟨ds, hr, hds⟩ := flow_messages_ok _ _ _ _ _ hm
      have hnames : r.map genflowtypes.FlowType.FlowTypeName?
          = (spec.flowNames ⟨qualifyTypes, embedEnums⟩ f).map some := by
        rw [hr, List.map_append, flow_messages_names _ _ _ _ hds]
        simp [spec.flowNames, genflowtypes.FlowType.FlowTypeName?,
          genflowtypes.namedFlowType.FlowTypeName, Function.comp_def]
      simp only [genflowtypes.template.Execute,
        flow_range_eq_flowEntries r _ hnames, Prod.mk.injEq, and_true] at h
      subst hr
      exact ⟨_, ds, flow_enums_forall2 _ _ _, hds,
        ⟨_, flow_enums_eq _ _ _ _, by rw [List.nil_append]; exact hm⟩, hnames, h.symm⟩

/-- Witness of C4: on `pets.proto` (two enums, two messages) both generators succeed; the
names are `Status`, `Color`, `Pet`, `Person` in this order and the texts are those of the
built slices. -/
theorem c4_declaration_order_witness :
    scenario.petsRegistry.LookupFile scenario.petsFile.GetName = .ok scenario.petsFile
    ∧ spec.elmNames ⟨false⟩ scenario.petsFile = ["Status", "Color", "Pet", "Person"]
    ∧ spec.flowNames ⟨false, false⟩ scenario.petsFile = ["Status", "Color", "Pet", "Person"]
    ∧ genelmtypes.generateElmTypes scenario.petsFile scenario.petsRegistry false
      = ("-- this is a generated file\ntype Status = ACTIVE | INACTIVE\n\ntype Color = RED | GREEN | BLUE\n\ntype alias Pet = \x7b\n  owner: Maybe Person,\n  colors: Maybe List Color\n\x7d\n\ntype alias Person = \x7b\n  name: Maybe String,\n  age: Maybe Int\n\x7d\n\n", none)
    ∧ genflowtypes.generateFlowTypes scenario.petsFile scenario.petsRegistry false false
      = ("/* @flow */\nexport type Status = \"ACTIVE\" | \"INACTIVE\";\n\nexport type Color = \"RED\" | \"GREEN\" | \"BLUE\";\n\nexport type Pet = \x7b\n  owner?: Person,\n  colors?: Array<Color>\n\x7d;\n\nexport type Person = \x7b\n  name?: string,\n  age?: number\n\x7d;\n\n", none)
    ∧ (∃ eds mds : List genelmtypes.ElmType,
        List.Forall₂ (fun e d => genelmtypes.enumToElmType ⟨false⟩ e scenario.petsRegistry
          = .ok d) scenario.petsFile.Enums eds
        ∧ List.Forall₂
          (fun m d => genelmtypes.messageToElmType ⟨false⟩ m scenario.petsRegistry = .ok d)
          scenario.petsFile.Messages mds
        ∧ (∃ r0, genelmtypes.generateElmTypes.enums ⟨false⟩ scenario.petsRegistry
              scenario.petsFile.Enums [] = .ok r0
          ∧ genelmtypes.generateElmTypes.messages ⟨false⟩ scenario.petsRegistry
              scenario.petsFile.Messages r0 = .ok (eds ++ mds))
        ∧ (eds ++ mds).map genelmtypes.ElmType.ElmTypeName?
            = (spec.elmNames ⟨false⟩ scenario.petsFile).map some
        ∧ (genelmtypes.generateElmTypes scenario.petsFile scenario.petsRegistry false).1
            = "-- this is a generated file\n"
              ++ spec.elmEntries (spec.elmNames ⟨false⟩ scenario.petsFile) (eds ++ mds))
    ∧ (∃ eds mds : List genflowtypes.FlowType,
        List.Forall₂
          (fun e d => genflowtypes.enumToFlowType ⟨false, false⟩ e scenario.petsRegistry
            = .ok d) scenario.petsFile.Enums eds
        ∧ List.Forall₂
          (fun m d => genflowtypes.messageToFlowType ⟨false, false⟩ m scenario.petsRegistry
            = .ok d) scenario.petsFile.Messages mds
        ∧ (∃ r0, genflowtypes.generateFlowTypes.enums ⟨false, false⟩ scenario.petsRegistry
              scenario.petsFile.Enums [] = .ok r0
          ∧ genflowtypes.generateFlowTypes.messages ⟨false, false⟩ scenario.petsRegistry
              scenario.petsFile.Messages r0 = .ok (eds ++ mds))
        ∧ (eds ++ mds).map genflowtypes.FlowType.FlowTypeName?
            = (spec.flowNames ⟨false, false⟩ scenario.petsFile).map some
        ∧ (genflowtypes.generateFlowTypes scenario.petsFile scenario.petsRegistry
              false false).1
            = "/* @flow */\n"
              ++ spec.flowEntries (spec.flowNames ⟨false, false⟩ scenario.petsFile)
                  (eds ++ mds)) :=
  ⟨rfl, by decide, by decide, by decide, by decide,
    (c4_declaration_order scenario.petsFile scenario.petsRegistry false false
      scenario.petsFile rfl).1 _ (by decide),
    (c4_declaration_order scenario.petsFile scenario.petsRegistry false false
      scenario.petsFile rfl).2 _ (by decide)⟩

/-- C5: scalar kind table.  For a non-repeated field of a scalar kind `fieldToType` succeeds,
whatever the registry and the options, with the primitive `Float` / `Int` / `Boolean` /
`String` in the functional dialect and `number` / `number` / `boolean` / `string` in the
structural dialect (the rendering of a primitive is its token). -/
theorem c5_scalar_kind_table
    (f : descriptor.Field) (reg : descriptor.Registry)
    (ecfg : genelmtypes.config) (fcfg : genflowtypes.config)
    (hlabel : f.GetLabel ≠ FieldDescriptorProto_LABEL_REPEATED) :
    ((f.GetType = FieldDescriptorProto_TYPE_DOUBLE ∨ f.GetType = FieldDescriptorProto_TYPE_FLOAT) →
      genelmtypes.fieldToType ecfg f reg = .ok (.mk f.GetName (.simpleElmType "Float"))
      ∧ genflowtypes.fieldToType fcfg f reg = .ok (.mk f.GetName (.simpleFlowType "number")))
    ∧ ((f.GetType = FieldDescriptorProto_TYPE_INT32 ∨ f.GetType = FieldDescriptorProto_TYPE_INT64
        ∨ f.GetType = FieldDescriptorProto_TYPE_UINT32 ∨ f.GetType = FieldDescriptorProto_TYPE_UINT64
        ∨ f.GetType = FieldDescriptorProto_TYPE_SINT32 ∨ f.GetType = FieldDescriptorProto_TYPE_SINT64
        ∨ f.GetType = FieldDescriptorProto_TYPE_FIXED32
        ∨ f.GetType = FieldDescriptorProto_TYPE_FIXED64
        ∨ f.GetType = FieldDescriptorProto_TYPE_SFIXED32
        ∨ f.GetType = FieldDescriptorProto_TYPE_SFIXED64) →
      genelmtypes.fieldToType ecfg f reg = .ok (.mk f.GetName (.simpleElmType "Int"))
      ∧ genflowtypes.fieldToType fcfg f reg = .ok (.mk f.GetName (.simpleFlowType "number")))
    ∧ (f.GetType = FieldDescriptorProto_TYPE_BOOL →
      genelmtypes.fieldToType ecfg f reg = .ok (.mk f.GetName (.simpleElmType "Boolean"))
      ∧ genflowtypes.fieldToType fcfg f reg = .ok (.mk f.GetName (.simpleFlowType "boolean")))
    ∧ (f.GetType = FieldDescriptorProto_TYPE_STRING →
      genelmtypes.fieldToType ecfg f reg = .ok (.mk f.GetName (.simpleElmType "String"))
      ∧ genflowtypes.fieldToType fcfg f reg = .ok (.mk f.GetName (.simpleFlowType "string")))
    ∧ (∀ s, (genelmtypes.ElmType.simpleElmType s).ElmType = s)
    ∧ (∀ s, (genflowtypes.FlowType.simpleFlowType s).FlowType = s) := by
  have hlabel : ¬ f.GetLabel = 3 := hlabel
  refine ⟨?_, ?_, ?_, ?_, fun s => by simp [genelmtypes.ElmType.ElmType],
    fun s => by simp [genflowtypes.FlowType.FlowType]⟩
  · rintro (h | h) <;>
      simp [genelmtypes.fieldToType, genelmtypes.fieldToType.base, genflowtypes.fieldToType,
        genflowtypes.fieldToType.base, h, hlabel]
  · rintro (h | h | h | h | h | h | h | h | h | h) <;>
      simp [genelmtypes.fieldToType, genelmtypes.fieldToType.base, genflowtypes.fieldToType,
        genflowtypes.fieldToType.base, h, hlabel]
  · intro h
    simp [genelmtypes.fieldToType, genelmtypes.fieldToType.base, genflowtypes.fieldToType,
      genflowtypes.fieldToType.base, h, hlabel]
  · intro h
    simp [genelmtypes.fieldToType, genelmtypes.fieldToType.base, genflowtypes.fieldToType,
      genflowtypes.fieldToType.base, h, hlabel]

/-- Witness of C5: the optional int32 field `age`, against a registry that resolves
nothing it is asked about here. -/
theorem c5_scalar_kind_table_witness :
    scenario.ageField.GetLabel ≠ FieldDescriptorProto_LABEL_REPEATED
    ∧ scenario.ageField.GetType = FieldDescriptorProto_TYPE_INT32
    ∧ genelmtypes.fieldToType ⟨true⟩ scenario.ageField scenario.orderRegistry
        = .ok (.mk "age" (.simpleElmType "Int"))
    ∧ genflowtypes.fieldToType ⟨false, true⟩ scenario.ageField scenario.orderRegistry
        = .ok (.mk "age" (.simpleFlowType "number")) :=
  ⟨by decide, rfl,
    (c5_scalar_kind_table scenario.ageField scenario.orderRegistry ⟨true⟩ ⟨false, true⟩
      (by decide)).2.1 (Or.inl rfl)⟩

/-! ### The kind switch does not read the label -/

theorem elm_base_label (cfg : genelmtypes.config) (reg : descriptor.Registry)
    (f : descriptor.Field) (l : FieldDescriptorProto_Label) :
    genelmtypes.fieldToType.base cfg { f with GetLabel := l } reg
      = genelmtypes.fieldToType.base cfg f reg := rfl

theorem flow_base_label (cfg : genflowtypes.config) (reg : descriptor.Registry)
    (f : descriptor.Field) (l : FieldDescriptorProto_Label) :
    genflowtypes.fieldToType.base cfg { f with GetLabel := l } reg
      = genflowtypes.fieldToType.base cfg f reg := rfl

/-- C6: repeated wrapping.  In each dialect, for a field with a non-repeated label: if
`fieldToType` succeeds with type `t`, then on the same field with the repeated label it
succeeds with the array wrapper of exactly `t`, which renders as `List t` resp.
`Array<t>`; and it fails with the repeated label exactly when (and with the same error
as) it fails with the non-repeated one. -/
theorem c6_repeated_wrapping
    (f : descriptor.Field) (reg : descriptor.Registry)
    (ecfg : genelmtypes.config) (fcfg : genflowtypes.config)
    (hlabel : f.GetLabel ≠ FieldDescriptorProto_LABEL_REPEATED) :
    (∀ name t, genelmtypes.fieldToType ecfg f reg = .ok (.mk name t) →
      genelmtypes.fieldToType ecfg { f with GetLabel := FieldDescriptorProto_LABEL_REPEATED } reg
          = .ok (.mk name (.repeatedElmType t))
      ∧ (genelmtypes.ElmType.repeatedElmType t).ElmType = "List " ++ t.ElmType)
    ∧ (∀ err, genelmtypes.fieldToType ecfg
          { f with GetLabel := FieldDescriptorProto_LABEL_REPEATED } reg = .error err
        ↔ genelmtypes.fieldToType ecfg f reg = .error err)
    ∧ (∀ name t, genflowtypes.fieldToType fcfg f reg = .ok (.mk name t) →
      genflowtypes.fieldToType fcfg { f with GetLabel := FieldDescriptorProto_LABEL_REPEATED } reg
          = .ok (.mk name (.repeatedFlowType t))
      ∧ (genflowtypes.FlowType.repeatedFlowType t).FlowType = "Array<" ++ t.FlowType ++ ">")
    ∧ (∀ err, genflowtypes.fieldToType fcfg
          { f with GetLabel := FieldDescriptorProto_LABEL_REPEATED } reg = .error err
        ↔ genflowtypes.fieldToType fcfg f reg = .error err) := by
  refine ⟨?_, ?_, ?_, ?_⟩
  · intro name t h
    unfold genelmtypes.fieldToType at h ⊢
    rw [elm_base_label]
    cases hb : genelmtypes.fieldToType.base ecfg f reg with
    | error err => rw [hb] at h; cases h
    | ok b =>
      rw [hb] at h
      simp only [if_neg hlabel, Except.ok.injEq, genelmtypes.namedElmType.mk.injEq] at h
      simp [h.1, h.2, genelmtypes.ElmType.ElmType]
  · intro err
    unfold genelmtypes.fieldToType
    rw [elm_base_label]
    cases hb : genelmtypes.fieldToType.base ecfg f reg <;> simp
  · intro name t h
    unfold genflowtypes.fieldToType at h ⊢
    rw [flow_base_label]
    cases hb : genflowtypes.fieldToType.base fcfg f reg with
    | error err => rw [hb] at h; cases h
    | ok b =>
      rw [hb] at h
      simp only [if_neg hlabel, Except.ok.injEq, genflowtypes.namedFlowType.mk.injEq] at h
      simp [h.1, h.2, genflowtypes.FlowType.FlowType]
  · intro err
    unfold genflowtypes.fieldToType
    rw [flow_base_label]
    cases hb : genflowtypes.fieldToType.base fcfg f reg <;> simp

/-- Witness of C6: the optional message-kind field `owner` of `Pet`; with the repeated
label it maps to the array of the same reference. -/
theorem c6_repeated_wrapping_witness :
    scenario.ownerField.GetLabel ≠ FieldDescriptorProto_LABEL_REPEATED
    ∧ genelmtypes.fieldToType ⟨false⟩ scenario.ownerField scenario.petsRegistry
        = .ok (.mk "owner" (.simpleElmType "Person"))
    ∧ genflowtypes.fieldToType ⟨false, false⟩ scenario.ownerField scenario.petsRegistry
        = .ok (.mk "owner" (.simpleFlowType "Person"))
    ∧ (genelmtypes.fieldToType ⟨false⟩
          { scenario.ownerField with GetLabel := FieldDescriptorProto_LABEL_REPEATED }
          scenario.petsRegistry
        = .ok (.mk "owner" (.repeatedElmType (.simpleElmType "Person")))
      ∧ (genelmtypes.ElmType.repeatedElmType (.simpleElmType "Person")).ElmType
        = "List " ++ (genelmtypes.ElmType.simpleElmType "Person").ElmType)
    ∧ (genflowtypes.fieldToType ⟨false, false⟩
          { scenario.ownerField with GetLabel := FieldDescriptorProto_LABEL_REPEATED }
          scenario.petsRegistry
        = .ok (.mk "owner" (.repeatedFlowType (.simpleFlowType "Person")))
      ∧ (genflowtypes.FlowType.repeatedFlowType (.simpleFlowType "Person")).FlowType
        = "Array<" ++ (genflowtypes.FlowType.simpleFlowType "Person").FlowType ++ ">") :=
  ⟨by decide, rfl, rfl,
    (c6_repeated_wrapping scenario.ownerField scenario.petsRegistry ⟨false⟩ ⟨false, false⟩
      (by decide)).1 "owner" (.simpleElmType "Person") rfl,
    (c6_repeated_wrapping scenario.ownerField scenario.petsRegistry ⟨false⟩ ⟨false, false⟩
      (by decide)).2.2.1 "owner" (.simpleFlowType "Person") rfl⟩

/-- C7: declarations and references agree on names.  For a non-repeated message-kind field
resolved to `m`, the token `fieldToType` gives the field is the name of any declaration
`messageToElmType` / `messageToFlowType` builds for `m`; for a non-repeated enum-kind field
resolved to `e` (with `embedEnums = false` in the structural dialect) it is the name of the
declaration `enumToElmType` / `enumToFlowType` builds for `e`. -/
theorem c7_names_agree
    (f : descriptor.Field) (reg : descriptor.Registry) (alwaysQualify embedEnums : Bool)
    (hlabel : f.GetLabel ≠ FieldDescriptorProto_LABEL_REPEATED) :
    (∀ m, f.GetType = FieldDescriptorProto_TYPE_MESSAGE →
        reg.LookupMsg "" f.GetTypeName = .ok m →
      (∃ t, genelmtypes.fieldToType ⟨alwaysQualify⟩ f reg = .ok (.mk f.GetName t)
        ∧ ∀ d, genelmtypes.messageToElmType ⟨alwaysQualify⟩ m reg = .ok d →
            d.ElmTypeName? = some t.ElmType)
      ∧ (∃ t, genflowtypes.fieldToType ⟨alwaysQualify, embedEnums⟩ f reg
            = .ok (.mk f.GetName t)
        ∧ ∀ d, genflowtypes.messageToFlowType ⟨alwaysQualify, embedEnums⟩ m reg = .ok d →
            d.FlowTypeName? = some t.FlowType))
    ∧ (∀ e, f.GetType = FieldDescriptorProto_TYPE_ENUM →
        reg.LookupEnum "" f.GetTypeName = .ok e →
      (∃ t d, genelmtypes.fieldToType ⟨alwaysQualify⟩ f reg = .ok (.mk f.GetName t)
        ∧ genelmtypes.enumToElmType ⟨alwaysQualify⟩ e reg = .ok d
        ∧ d.ElmTypeName? = some t.ElmType)
      ∧ (∃ t d, genflowtypes.fieldToType ⟨alwaysQualify, false⟩ f reg = .ok (.mk f.GetName t)
        ∧ genflowtypes.enumToFlowType ⟨alwaysQualify, false⟩ e reg = .ok d
        ∧ d.FlowTypeName? = some t.FlowType)) := by
  have hlabel : ¬ f.GetLabel = 3 := hlabel
  constructor
  · intro m hty hm
    constructor
    · refine ⟨.simpleElmType (genelmtypes.messageTypeName ⟨alwaysQualify⟩ m), ?_, ?_⟩
      · simp [genelmtypes.fieldToType, genelmtypes.fieldToType.base, hty, hm, hlabel]
      · intro d hd
        obtain ⟨Fields, _, rfl⟩ := elm_messageToElmType_ok _ _ _ _ hd
        simp [genelmtypes.ElmType.ElmTypeName?, genelmtypes.namedElmType.ElmTypeName,
          genelmtypes.ElmType.ElmType]
    · refine ⟨.simpleFlowType (genflowtypes.messageTypeName ⟨alwaysQualify, embedEnums⟩ m),
        ?_, ?_⟩
      · simp [genflowtypes.fieldToType, genflowtypes.fieldToType.base, hty, hm, hlabel]
      · intro d hd
        obtain ⟨Fields, _, rfl⟩ := flow_messageToFlowType_ok _ _ _ _ hd
        simp [genflowtypes.FlowType.FlowTypeName?, genflowtypes.namedFlowType.FlowTypeName,
          genflowtypes.FlowType.FlowType]
  · intro e hty he
    constructor
    · refine ⟨.simpleElmType (genelmtypes.enumTypeName ⟨alwaysQualify⟩ e), _, ?_, rfl, ?_⟩
      · simp [genelmtypes.fieldToType, genelmtypes.fieldToType.base, hty, he, hlabel]
      · simp [genelmtypes.ElmType.ElmTypeName?, genelmtypes.namedElmType.ElmTypeName,
          genelmtypes.ElmType.ElmType]
    · refine ⟨.simpleFlowType (genflowtypes.enumTypeName ⟨alwaysQualify, false⟩ e), _, ?_,
        rfl, ?_⟩
      · simp [genflowtypes.fieldToType, genflowtypes.fieldToType.base, hty, he, hlabel]
      · simp [genflowtypes.FlowType.FlowTypeName?, genflowtypes.namedFlowType.FlowTypeName,
          genflowtypes.FlowType.FlowType]

/-- Witness of C7: the field `owner` of `Pet` refers to `Person`; the reference token and
the declaration built for `Person` are both named `Person`. -/
theorem c7_names_agree_witness :
    scenario.ownerField.GetLabel ≠ FieldDescriptorProto_LABEL_REPEATED
    ∧ scenario.ownerField.GetType = FieldDescriptorProto_TYPE_MESSAGE
    ∧ scenario.petsRegistry.LookupMsg "" scenario.ownerField.GetTypeName
        = .ok scenario.personMessage
    ∧ (∃ d, genelmtypes.messageToElmType ⟨false⟩ scenario.personMessage scenario.petsRegistry
        = .ok d)
    ∧ (∃ t, genelmtypes.fieldToType ⟨false⟩ scenario.ownerField scenario.petsRegistry
          = .ok (.mk scenario.ownerField.GetName t)
        ∧ ∀ d, genelmtypes.messageToElmType ⟨false⟩ scenario.personMessage
            scenario.petsRegistry = .ok d → d.ElmTypeName? = some t.ElmType)
    ∧ (∃ t, genflowtypes.fieldToType ⟨false, true⟩ scenario.ownerField scenario.petsRegistry
          = .ok (.mk scenario.ownerField.GetName t)
        ∧ ∀ d, genflowtypes.messageToFlowType ⟨false, true⟩ scenario.personMessage
            scenario.petsRegistry = .ok d → d.FlowTypeName? = some t.FlowType)
    ∧ scenario.statusField.GetLabel ≠ FieldDescriptorProto_LABEL_REPEATED
    ∧ scenario.statusField.GetType = FieldDescriptorProto_TYPE_ENUM
    ∧ scenario.petsRegistry.LookupEnum "" scenario.statusField.GetTypeName
        = .ok scenario.statusEnum
    ∧ (∃ t d, genelmtypes.fieldToType ⟨false⟩ scenario.statusField scenario.petsRegistry
          = .ok (.mk scenario.statusField.GetName t)
        ∧ genelmtypes.enumToElmType ⟨false⟩ scenario.statusEnum scenario.petsRegistry = .ok d
        ∧ d.ElmTypeName? = some t.ElmType)
    ∧ (∃ t d, genflowtypes.fieldToType ⟨false, false⟩ scenario.statusField
            scenario.petsRegistry
          = .ok (.mk scenario.statusField.GetName t)
        ∧ genflowtypes.enumToFlowType ⟨false, false⟩ scenario.statusEnum
            scenario.petsRegistry = .ok d
        ∧ d.FlowTypeName? = some t.FlowType) :=
  ⟨by decide, rfl, rfl, ⟨_, rfl⟩,
    ((c7_names_agree scenario.ownerField scenario.petsRegistry false true (by decide)).1
      scenario.personMessage rfl rfl).1,
    ((c7_names_agree scenario.ownerField scenario.petsRegistry false true (by decide)).1
      scenario.personMessage rfl rfl).2,
    by decide, rfl, rfl,
    (c7_names_agree scenario.statusField scenario.petsRegistry false true (by decide)).2
      scenario.statusEnum rfl rfl⟩

/-! ### The Name Qualifier on strings -/

theorem dotless_data (n : String) :
    (spec.dotless n).data = n.data.filter (fun c => decide (c ≠ '.')) := rfl

theorem dot_not_mem_dotless (n : String) : '.' ∉ (spec.dotless n).data := by
  simp [dotless_data, List.mem_filter]

theorem dotless_of_not_mem (r : String) (h : '.' ∉ r.data) : spec.dotless r = r := by
  apply String.ext
  rw [dotless_data, List.filter_eq_self]
  intro c hc
  have : c ≠ '.' := fun hcd => h (hcd ▸ hc)
  simpa using this

theorem dot_not_mem_qualify (n p : String) (aq : Bool) : '.' ∉ (spec.qualify n p aq).data := by
  unfold spec.qualify
  split_ifs
  · exact dot_not_mem_dotless n
  · exact fun h => dot_not_mem_dotless n (List.mem_of_mem_drop h)
  · exact dot_not_mem_dotless n

theorem qualify_true (n p : String) : spec.qualify n p true = spec.dotless n := by
  simp [spec.qualify]

theorem qualify_false_of_append (n p t : String) (h : spec.dotless n = p ++ t) :
    spec.qualify n p false = t := by
  have hd : (spec.dotless n).data = p.data ++ t.data := by rw [h, String.data_append]
  have hp : p.data <+: (spec.dotless n).data := ⟨t.data, hd.symm⟩
  unfold spec.qualify
  simp only [Bool.false_eq_true, if_false, if_pos hp]
  apply String.ext
  simp [hd]

theorem qualify_false_of_not_append (n p : String) (h : ¬ ∃ t, spec.dotless n = p ++ t) :
    spec.qualify n p false = spec.dotless n := by
  have hp : ¬ p.data <+: (spec.dotless n).data := by
    rintro ⟨t, ht⟩
    exact h ⟨⟨t⟩, String.ext (by rw [String.data_append, ht])⟩
  unfold spec.qualify
  simp only [Bool.false_eq_true, if_false, if_neg hp]

theorem qualify_idem_iff (n p : String) (aq : Bool) :
    spec.qualify (spec.qualify n p aq) p aq = spec.qualify n p aq
      ↔ (aq = true ∨ p = "" ∨ ¬ p.data <+: (spec.qualify n p aq).data) := by
  have hr := dot_not_mem_qualify n p aq
  generalize spec.qualify n p aq = r at hr
  cases aq with
  | true => simp [qualify_true, dotless_of_not_mem r hr]
  | false =>
    simp only [Bool.false_eq_true, false_or]
    unfold spec.qualify
    simp only [Bool.false_eq_true, if_false, dotless_of_not_mem r hr]
    by_cases hp : p.data <+: r.data
    · simp only [if_pos hp, hp, not_true_eq_false, or_false]
      constructor
      · intro h
        have hlen : (List.drop p.data.length r.data).length = r.data.length :=
          congrArg (fun s : String => s.data.length) h
        rw [List.length_drop] at hlen
        have hle := hp.length_le
        have hz : p.data.length = 0 := by omega
        exact String.ext (List.length_eq_zero.mp hz)
      · intro h
        subst h
        rfl
    · simp [if_neg hp, hp]

theorem qualify_false_eq_iff (n1 n2 p : String)
    (h1 : ("." ++ p ++ ".").data <+: n1.data) (h2 : ("." ++ p ++ ".").data <+: n2.data) :
    spec.qualify n1 p false = spec.qualify n2 p false ↔ spec.dotless n1 = spec.dotless n2 := by
  have key : ∀ n : String, ("." ++ p ++ ".").data <+: n.data →
      (p.data <+: (spec.dotless n).data ↔ '.' ∉ p.data) := by
    intro n hn
    constructor
    · intro hp hmem
      exact dot_not_mem_dotless n (hp.subset hmem)
    · intro hdot
      obtain ⟨t, ht⟩ := hn
      refine ⟨(List.filter (fun c => decide (c ≠ '.')) t), ?_⟩
      rw [dotless_data, ← ht]
      simp only [String.data_append, List.filter_append]
      have hpf : List.filter (fun c => decide (c ≠ '.')) p.data = p.data := by
        rw [List.filter_eq_self]
        intro c hc
        have : c ≠ '.' := fun hcd => hdot (hcd ▸ hc)
        simpa using this
      rw [hpf]
      have hdotf : List.filter (fun c => decide (c ≠ '.')) ".".data = [] := by decide
      rw [hdotf]
      simp
  unfold spec.qualify
  simp only [Bool.false_eq_true, if_false]
  by_cases hdot : '.' ∈ p.data
  · rw [if_neg (fun h => (key n1 h1).mp h hdot), if_neg (fun h => (key n2 h2).mp h hdot)]
  · have hp1 := (key n1 h1).mpr hdot
    have hp2 := (key n2 h2).mpr hdot
    rw [if_pos hp1, if_pos hp2]
    constructor
    · intro h
      have hd : List.drop p.data.length (spec.dotless n1).data
          = List.drop p.data.length (spec.dotless n2).data := congrArg String.data h
      apply String.ext
      rw [← List.prefix_iff_eq_append.mp hp1, ← List.prefix_iff_eq_append.mp hp2, hd]
    · intro h
      rw [h]

theorem strings_ReplaceDots_eq (s : String) : strings.ReplaceDots s = spec.dotless s := by
  apply String.ext
  show List.filter (fun c => c != '.') s.data = List.filter (fun c => decide (c ≠ '.')) s.data
  congr 1
  funext c
  by_cases hc : c = '.' <;> simp [hc]

theorem strings_HasPrefix_iff (s p : String) :
    strings.HasPrefix s p = true ↔ p.data <+: s.data := by
  unfold strings.HasPrefix
  exact List.isPrefixOf_iff_prefix

theorem strings_qualify_eq (n p : String) (aq : Bool) :
    (if (!aq) = true then
        if strings.HasPrefix (strings.ReplaceDots n) p = true then
          strings.sliceFrom (strings.ReplaceDots n) (strings.len p)
        else strings.ReplaceDots n
      else strings.ReplaceDots n) = spec.qualify n p aq := by
  unfold spec.qualify
  rw [strings_ReplaceDots_eq]
  cases aq with
  | true => simp
  | false =>
    simp only [Bool.not_false, if_true, Bool.false_eq_true, if_false]
    by_cases hp : p.data <+: (spec.dotless n).data
    · rw [if_pos hp, if_pos ((strings_HasPrefix_iff _ _).mpr hp)]
      rfl
    · rw [if_neg hp, if_neg (fun h => hp ((strings_HasPrefix_iff _ _).mp h))]

theorem elm_messageTypeName_eq (cfg : genelmtypes.config) (m : descriptor.Message) :
    genelmtypes.messageTypeName cfg m
      = spec.qualify m.FQMN m.File.GoPkg.Name cfg.alwaysQualifyTypeNames :=
  strings_qualify_eq _ _ _

theorem elm_enumTypeName_eq (cfg : genelmtypes.config) (e : descriptor.Enum) :
    genelmtypes.enumTypeName cfg e
      = spec.qualify e.FQEN e.File.GoPkg.Name cfg.alwaysQualifyTypeNames :=
  strings_qualify_eq _ _ _

theorem flow_messageTypeName_eq (cfg : genflowtypes.config) (m : descriptor.Message) :
    genflowtypes.messageTypeName cfg m
      = spec.qualify m.FQMN m.File.GoPkg.Name cfg.alwaysQualifyTypeNames :=
  strings_qualify_eq _ _ _

theorem flow_enumTypeName_eq (cfg : genflowtypes.config) (e : descriptor.Enum) :
    genflowtypes.enumTypeName cfg e
      = spec.qualify e.FQEN e.File.GoPkg.Name cfg.alwaysQualifyTypeNames :=
  strings_qualify_eq _ _ _

theorem mem_qualifiers (n p : String) (aq emb : Bool) (fields : List descriptor.Field)
    (values : List pbdescriptor.EnumValueDescriptorProto) (r : String)
    (h : r ∈ spec.qualifiers n p aq emb fields values) : r = spec.qualify n p aq := by
  simp only [spec.qualifiers, elm_messageTypeName_eq, elm_enumTypeName_eq,
    flow_messageTypeName_eq, flow_enumTypeName_eq, List.mem_cons, List.mem_singleton,
    List.mem_nil_iff, or_false, or_self] at h
  exact h

/-- C8: the Name Qualifier.  Each of `messageTypeName` and `enumTypeName`, in either
dialect, returns the name `s` with every `.` removed when `alwaysQualify` is true; when it
is false, it returns `s` without its leading `p` if `s` starts with `p`, and `s` unchanged
otherwise.  In every case the result contains no `.` character. -/
theorem c8_name_qualifier (n p : String) (emb : Bool) (fields : List descriptor.Field)
    (values : List pbdescriptor.EnumValueDescriptorProto) :
    (∀ r ∈ spec.qualifiers n p true emb fields values, r = spec.dotless n)
    ∧ (∀ r ∈ spec.qualifiers n p false emb fields values,
        (∀ t, spec.dotless n = p ++ t → r = t)
        ∧ ((¬ ∃ t, spec.dotless n = p ++ t) → r = spec.dotless n))
    ∧ (∀ aq, ∀ r ∈ spec.qualifiers n p aq emb fields values, '.' ∉ r.data) := by
  refine ⟨?_, ?_, ?_⟩
  · intro r hr
    rw [mem_qualifiers _ _ _ _ _ _ _ hr, qualify_true]
  · intro r hr
    rw [mem_qualifiers _ _ _ _ _ _ _ hr]
    exact ⟨fun t ht => qualify_false_of_append n p t ht,
      fun h => qualify_false_of_not_append n p h⟩
  · intro aq r hr
    rw [mem_qualifiers _ _ _ _ _ _ _ hr]
    exact dot_not_mem_qualify n p aq

/-- Witness of C8: `.example.Person` in package `example` is `examplePerson` without dots
and `Person` once the package prefix is cut off. -/
theorem c8_name_qualifier_witness :
    spec.qualifiers ".example.Person" "example" false true [] []
      = ["Person", "Person", "Person", "Person"]
    ∧ spec.dotless ".example.Person" = "example" ++ "Person"
    ∧ ∀ r ∈ spec.qualifiers ".example.Person" "example" false true [] [], r = "Person" :=
  ⟨by decide, by decide, fun r hr =>
    ((c8_name_qualifier ".example.Person" "example" true [] []).2.1 r hr).1 "Person"
      (by decide)⟩

/-- C9, as stated, fails: a message `fooBar` of package `foo` is given the public name
`fooBar`, and qualifying that name again cuts the prefix `foo` a second time. -/
theorem c9_idempotent_counterexample :
    genelmtypes.messageTypeName ⟨false⟩
        { FQMN := ".foo.fooBar", File := ⟨⟨"foo"⟩⟩, Fields := [] } = "fooBar"
    ∧ genelmtypes.messageTypeName ⟨false⟩
        { FQMN := genelmtypes.messageTypeName ⟨false⟩
            { FQMN := ".foo.fooBar", File := ⟨⟨"foo"⟩⟩, Fields := [] },
          File := ⟨⟨"foo"⟩⟩, Fields := [] } = "Bar"
    ∧ genelmtypes.messageTypeName ⟨false⟩
        { FQMN := genelmtypes.messageTypeName ⟨false⟩
            { FQMN := ".foo.fooBar", File := ⟨⟨"foo"⟩⟩, Fields := [] },
          File := ⟨⟨"foo"⟩⟩, Fields := [] }
      ≠ genelmtypes.messageTypeName ⟨false⟩
        { FQMN := ".foo.fooBar", File := ⟨⟨"foo"⟩⟩, Fields := [] } := by
  decide

/-- C9, amended: qualifying the output `r` of the Name Qualifier again, relative to the
same package `p` and with the same options, returns `r` unchanged exactly when
`alwaysQualify` is true, or `p` is empty, or `r` does not itself start with `p`. -/
theorem c9_idempotent (n p : String) (aq emb : Bool) (fields : List descriptor.Field)
    (values : List pbdescriptor.EnumValueDescriptorProto) :
    ∀ r ∈ spec.qualifiers n p aq emb fields values,
      ∀ r2 ∈ spec.qualifiers r p aq emb fields values,
        (r2 = r ↔ (aq = true ∨ p = "" ∨ ¬ p.data <+: r.data)) := by
  intro r hr r2 hr2
  rw [mem_qualifiers _ _ _ _ _ _ _ hr2, mem_qualifiers _ _ _ _ _ _ _ hr]
  exact qualify_idem_iff n p aq

/-- Witness of C9 (amended): `Person` does not start with `example`, so qualifying it again
leaves it unchanged. -/
theorem c9_idempotent_witness :
    spec.qualifiers ".example.Person" "example" false false [] []
      = ["Person", "Person", "Person", "Person"]
    ∧ ¬ "example".data <+: "Person".data
    ∧ ∀ r2 ∈ spec.qualifiers "Person" "example" false false [] [], r2 = "Person" :=
  ⟨by decide, by decide, fun r2 hr2 =>
    (c9_idempotent ".example.Person" "example" false false [] [] "Person" (by decide)
      r2 hr2).mpr (Or.inr (Or.inr (by decide)))⟩

/-- C10, as stated, fails: the nested message `.example.A.B` and the top-level message
`.example.AB` are distinct names of package `example` with the same public name. -/
theorem c10_unambiguous_counterexample :
    (".example.A.B" : String) ≠ ".example.AB"
    ∧ ("." ++ "example" ++ ".").data <+: ".example.A.B".data
    ∧ ("." ++ "example" ++ ".").data <+: ".example.AB".data
    ∧ genelmtypes.messageTypeName ⟨false⟩
        { FQMN := ".example.A.B", File := ⟨⟨"example"⟩⟩, Fields := [] }
      = genelmtypes.messageTypeName ⟨false⟩
        { FQMN := ".example.AB", File := ⟨⟨"example"⟩⟩, Fields := [] }
    ∧ genflowtypes.messageTypeName ⟨false, false⟩
        { FQMN := ".example.A.B", File := ⟨⟨"example"⟩⟩, Fields := [] }
      = genflowtypes.messageTypeName ⟨false, false⟩
        { FQMN := ".example.AB", File := ⟨⟨"example"⟩⟩, Fields := [] } := by
  decide

/-- C10, amended: for two fully-qualified names of the package `p` (both start with
`.p.`), the Name Qualifier with `alwaysQualify = false` returns distinct public names
exactly when the two names still differ after every `.` is removed. -/
theorem c10_unambiguous (n1 n2 p : String) (emb : Bool) (fields : List descriptor.Field)
    (values : List pbdescriptor.EnumValueDescriptorProto)
    (h1 : ("." ++ p ++ ".").data <+: n1.data) (h2 : ("." ++ p ++ ".").data <+: n2.data) :
    ∀ r1 ∈ spec.qualifiers n1 p false emb fields values,
      ∀ r2 ∈ spec.qualifiers n2 p false emb fields values,
        (r1 ≠ r2 ↔ spec.dotless n1 ≠ spec.dotless n2) := by
  intro r1 hr1 r2 hr2
  rw [mem_qualifiers _ _ _ _ _ _ _ hr1, mem_qualifiers _ _ _ _ _ _ _ hr2]
  exact not_congr (qualify_false_eq_iff n1 n2 p h1 h2)

/-- Witness of C10 (amended): `.example.Person` and `.example.Pet` differ without their
dots, and their public names `Person` and `Pet` differ. -/
theorem c10_unambiguous_witness :
    ("." ++ "example" ++ ".").data <+: ".example.Person".data
    ∧ ("." ++ "example" ++ ".").data <+: ".example.Pet".data
    ∧ spec.dotless ".example.Person" ≠ spec.dotless ".example.Pet"
    ∧ ∀ r1 ∈ spec.qualifiers ".example.Person" "example" false false [] [],
        ∀ r2 ∈ spec.qualifiers ".example.Pet" "example" false false [] [], r1 ≠ r2 :=
  ⟨by decide, by decide, by decide, fun r1 hr1 r2 hr2 =>
    (c10_unambiguous ".example.Person" ".example.Pet" "example" false [] []
      (by decide) (by decide) r1 hr1 r2 hr2).mpr (by decide)⟩

/-! ### Joining strings -/

theorem strings_Join_cons_cons (a b sep : String) (rest : List String) :
    strings.Join ((a ++ sep ++ b) :: rest) sep = a ++ sep ++ strings.Join (b :: rest) sep := by
  cases rest with
  | nil => simp [strings.Join]
  | cons c r => simp [strings.Join, String.append_assoc]

theorem strings_intercalate_go (sep : String) :
    ∀ (l : List String) (a : String),
    String.intercalate.go a sep l = strings.Join (a :: l) sep := by
  intro l
  induction l with
  | nil => intro a; simp [String.intercalate.go, strings.Join]
  | cons b rest ih =>
    intro a
    rw [String.intercalate.go, ih, strings_Join_cons_cons]
    simp [strings.Join]

theorem strings_Join_eq_intercalate (l : List String) (sep : String) :
    strings.Join l sep = sep.intercalate l := by
  cases l with
  | nil => simp [strings.Join, String.intercalate]
  | cons a rest => rw [String.intercalate, strings_intercalate_go]

theorem string_join_cons (a : String) (l : List String) :
    String.join (a :: l) = a ++ String.join l := by
  apply String.ext
  simp [String.data_join, String.data_append]

/-- C11: bytes against strings.  In the functional dialect the optional bytes field
`payload` maps to the primitive `string`, while the same field with the string kind maps to
`String`: the two tokens differ.  In the structural dialect both map to `string`. -/
theorem c11_bytes_elm_divergence :
    genelmtypes.fieldToType ⟨false⟩ scenario.payloadField scenario.personRegistry
      = .ok (.mk "payload" (.simpleElmType "string"))
    ∧ genelmtypes.fieldToType ⟨false⟩
        { scenario.payloadField with GetType := FieldDescriptorProto_TYPE_STRING }
        scenario.personRegistry
      = .ok (.mk "payload" (.simpleElmType "String"))
    ∧ (genelmtypes.ElmType.simpleElmType "string").ElmType
      ≠ (genelmtypes.ElmType.simpleElmType "String").ElmType
    ∧ genflowtypes.fieldToType ⟨false, false⟩ scenario.payloadField scenario.personRegistry
      = .ok (.mk "payload" (.simpleFlowType "string"))
    ∧ genflowtypes.fieldToType ⟨false, false⟩
        { scenario.payloadField with GetType := FieldDescriptorProto_TYPE_STRING }
        scenario.personRegistry
      = .ok (.mk "payload" (.simpleFlowType "string")) :=
  ⟨rfl, rfl, by decide, rfl, rfl⟩

/-- C12, as stated, fails: in the structural dialect the field `blob`, whose kind is none
of the eighteen known ones and whose raw type name is `.example.Opaque`, maps to the
primitive `any`, not to its raw type name. -/
theorem c12_unknown_kinds_counterexample :
    scenario.blobField.GetType ∉ spec.knownKinds
    ∧ scenario.blobField.GetTypeName = ".example.Opaque"
    ∧ genflowtypes.fieldToType ⟨false, false⟩ scenario.blobField scenario.personRegistry
      = .ok (.mk "blob" (.simpleFlowType "any"))
    ∧ (genflowtypes.FlowType.simpleFlowType "any").FlowType ≠ scenario.blobField.GetTypeName :=
  ⟨by decide, rfl, rfl, by decide⟩

/-- C12, amended: unknown kinds never fail.  For a field whose kind is none of the eighteen
known ones, `fieldToType` succeeds in both dialects: in the functional dialect with the
primitive named after the field's raw type name, in the structural dialect with the
primitive `any`; each wrapped in the array type when the field is repeated. -/
theorem c12_unknown_kinds
    (f : descriptor.Field) (reg : descriptor.Registry)
    (ecfg : genelmtypes.config) (fcfg : genflowtypes.config)
    (hkind : f.GetType ∉ spec.knownKinds) :
    (f.GetLabel ≠ FieldDescriptorProto_LABEL_REPEATED →
      genelmtypes.fieldToType ecfg f reg
        = .ok (.mk f.GetName (.simpleElmType f.GetTypeName))
      ∧ genflowtypes.fieldToType fcfg f reg
        = .ok (.mk f.GetName (.simpleFlowType "any")))
    ∧ (f.GetLabel = FieldDescriptorProto_LABEL_REPEATED →
      genelmtypes.fieldToType ecfg f reg
        = .ok (.mk f.GetName (.repeatedElmType (.simpleElmType f.GetTypeName)))
      ∧ genflowtypes.fieldToType fcfg f reg
        = .ok (.mk f.GetName (.repeatedFlowType (.simpleFlowType "any"))))
    ∧ (genelmtypes.ElmType.simpleElmType f.GetTypeName).ElmType = f.GetTypeName
    ∧ (genflowtypes.FlowType.simpleFlowType "any").FlowType = "any" := by
  simp only [spec.knownKinds, List.mem_cons, List.mem_singleton, List.mem_nil_iff, or_false,
    not_or] at hkind
  obtain ⟨h1, h2, h3, h4, h5, h6, h7, h8, h9, h10, h11, h12, h13, h14, h15, h16, h17, h18⟩ :=
    hkind
  have hbe : genelmtypes.fieldToType.base ecfg f reg
      = .ok (.simpleElmType f.GetTypeName) := by
    simp only [genelmtypes.fieldToType.base, h1, h2, h3, h4, h5, h6, h7, h8, h9, h10, h11,
      h12, h13, h14, h15, h16, h17, h18, or_self, if_false]
  have hbf : genflowtypes.fieldToType.base fcfg f reg = .ok (.simpleFlowType "any") := by
    simp only [genflowtypes.fieldToType.base, h1, h2, h3, h4, h5, h6, h7, h8, h9, h10, h11,
      h12, h13, h14, h15, h16, h17, h18, or_self, if_false]
  refine ⟨?_, ?_, by simp [genelmtypes.ElmType.ElmType],
    by simp [genflowtypes.FlowType.FlowType]⟩
  · intro hl
    simp only [genelmtypes.fieldToType, genflowtypes.fieldToType, hbe, hbf, if_neg hl,
      and_self]
  · intro hl
    simp only [genelmtypes.fieldToType, genflowtypes.fieldToType, hbe, hbf, if_pos hl,
      and_self]

/-- Witness of C12 (amended): the field `blob` of kind 19. -/
theorem c12_unknown_kinds_witness :
    scenario.blobField.GetType ∉ spec.knownKinds
    ∧ scenario.blobField.GetLabel ≠ FieldDescriptorProto_LABEL_REPEATED
    ∧ genelmtypes.fieldToType ⟨false⟩ scenario.blobField scenario.personRegistry
        = .ok (.mk "blob" (.simpleElmType ".example.Opaque"))
    ∧ genflowtypes.fieldToType ⟨false, false⟩ scenario.blobField scenario.personRegistry
        = .ok (.mk "blob" (.simpleFlowType "any")) :=
  ⟨by decide, by decide,
    (c12_unknown_kinds scenario.blobField scenario.personRegistry ⟨false⟩ ⟨false, false⟩
      (by decide)).1 (by decide)⟩

/-- C13: enum materialization.  `enumToElmType` and `enumToFlowType` always succeed; the
declaration is named `enumTypeName e` and its body is the primitive made of the value names
in declared order joined by ` | `: bare in the functional dialect, double-quoted in the
structural one.  The body reads nothing but the values. -/
theorem c13_enum_materialization
    (e : descriptor.Enum) (reg : descriptor.Registry)
    (ecfg : genelmtypes.config) (fcfg : genflowtypes.config) :
    genelmtypes.enumToElmType ecfg e reg
      = .ok (.named (.mk (genelmtypes.enumTypeName ecfg e)
          (.simpleElmType (" | ".intercalate (e.Value.map (fun v => v.GetName))))))
    ∧ genflowtypes.enumToFlowType fcfg e reg
      = .ok (.named (.mk (genflowtypes.enumTypeName fcfg e)
          (.simpleFlowType
            (" | ".intercalate (e.Value.map (fun v => "\"" ++ v.GetName ++ "\""))))))
    ∧ (∀ d, genelmtypes.enumToElmType ecfg e reg = .ok d →
        d.ElmTypeName? = some (genelmtypes.enumTypeName ecfg e)
        ∧ d.ElmType = " | ".intercalate (e.Value.map (fun v => v.GetName)))
    ∧ (∀ d, genflowtypes.enumToFlowType fcfg e reg = .ok d →
        d.FlowTypeName? = some (genflowtypes.enumTypeName fcfg e)
        ∧ d.FlowType = " | ".intercalate (e.Value.map (fun v => "\"" ++ v.GetName ++ "\"")))
    ∧ (e.Value.map (fun v => v.GetName)).length = e.Value.length
    ∧ (e.Value.map (fun v => "\"" ++ v.GetName ++ "\"")).length = e.Value.length := by
  refine ⟨?_, ?_, ?_, ?_, by simp, by simp⟩
  · simp only [genelmtypes.enumToElmType, strings_Join_eq_intercalate]
  · simp only [genflowtypes.enumToFlowType, strings_Join_eq_intercalate]
  · intro d hd
    simp only [genelmtypes.enumToElmType, Except.ok.injEq] at hd
    subst hd
    simp [genelmtypes.ElmType.ElmTypeName?, genelmtypes.namedElmType.ElmTypeName,
      genelmtypes.ElmType.ElmType, genelmtypes.namedElmType.ElmType,
      strings_Join_eq_intercalate]
  · intro d hd
    simp only [genflowtypes.enumToFlowType, Except.ok.injEq] at hd
    subst hd
    simp [genflowtypes.FlowType.FlowTypeName?, genflowtypes.namedFlowType.FlowTypeName,
      genflowtypes.FlowType.FlowType, genflowtypes.namedFlowType.FlowType,
      strings_Join_eq_intercalate]

/-- Witness of C13: the enum `Status` with its two values, and an enum without values. -/
theorem c13_enum_materialization_witness :
    (∀ d, genelmtypes.enumToElmType ⟨false⟩ scenario.statusEnum scenario.emptyRegistry = .ok d →
        d.ElmTypeName? = some "Status" ∧ d.ElmType = "ACTIVE | INACTIVE")
    ∧ (∀ d, genflowtypes.enumToFlowType ⟨false, false⟩ scenario.statusEnum
          scenario.emptyRegistry = .ok d →
        d.FlowTypeName? = some "Status" ∧ d.FlowType = "\"ACTIVE\" | \"INACTIVE\"") :=
  ⟨(c13_enum_materialization scenario.statusEnum scenario.emptyRegistry ⟨false⟩
      ⟨false, false⟩).2.2.1,
    (c13_enum_materialization scenario.statusEnum scenario.emptyRegistry ⟨false⟩
      ⟨false, false⟩).2.2.2.1⟩

/-- C14, as stated, fails: the enum `A` of package `example` has the public name `A` and the
single value `AB`; inlined, the field renders as `"AB"`, a text in which the public name
`A` occurs. -/
theorem c14_inlined_enums_counterexample :
    scenario.aRegistry.LookupEnum "" scenario.aField.GetTypeName = .ok scenario.aEnum
    ∧ genflowtypes.enumTypeName ⟨false, true⟩ scenario.aEnum = "A"
    ∧ genflowtypes.fieldToType ⟨false, true⟩ scenario.aField scenario.aRegistry
      = .ok (.mk "a" (.named (.mk "A" (.simpleFlowType "\"AB\""))))
    ∧ (genflowtypes.FlowType.named (.mk "A" (.simpleFlowType "\"AB\""))).FlowType = "\"AB\""
    ∧ (genflowtypes.enumTypeName ⟨false, true⟩ scenario.aEnum).data <:+: "\"AB\"".data :=
  ⟨rfl, by decide, rfl, by decide, by decide⟩

/-- C14, amended: inlined enums in the structural dialect.  For an enum-kind field resolved
to `e`, `fieldToType` with `embedEnums = true` returns a type that renders as the union of
`e`'s quoted value names, which is the body `enumToFlowType` gives `e`, when the field is
not repeated, and as `Array<` that union `>` when it is repeated.  The rendering depends
on `e` through its value names only: resolving the field to any enum with the same value
names, whatever its name and package and whatever `alwaysQualify`, gives the same
rendering.  With `embedEnums = false` the field renders as `enumTypeName e`, respectively
`Array<enumTypeName e>`. -/
theorem c14_inlined_enums
    (f : descriptor.Field) (reg : descriptor.Registry) (alwaysQualify : Bool)
    (e : descriptor.Enum)
    (hkind : f.GetType = FieldDescriptorProto_TYPE_ENUM)
    (hres : reg.LookupEnum "" f.GetTypeName = .ok e) :
    (∃ d, genflowtypes.enumToFlowType ⟨alwaysQualify, true⟩ e reg = .ok d
      ∧ d.FlowType = spec.quotedUnion e)
    ∧ (f.GetLabel ≠ FieldDescriptorProto_LABEL_REPEATED →
        (∃ t, genflowtypes.fieldToType ⟨alwaysQualify, true⟩ f reg = .ok (.mk f.GetName t)
          ∧ t.FlowType = spec.quotedUnion e)
        ∧ (∃ t, genflowtypes.fieldToType ⟨alwaysQualify, false⟩ f reg = .ok (.mk f.GetName t)
          ∧ t.FlowType = genflowtypes.enumTypeName ⟨alwaysQualify, false⟩ e))
    ∧ (f.GetLabel = FieldDescriptorProto_LABEL_REPEATED →
        (∃ t, genflowtypes.fieldToType ⟨alwaysQualify, true⟩ f reg = .ok (.mk f.GetName t)
          ∧ t.FlowType = "Array<" ++ spec.quotedUnion e ++ ">")
        ∧ (∃ t, genflowtypes.fieldToType ⟨alwaysQualify, false⟩ f reg = .ok (.mk f.GetName t)
          ∧ t.FlowType
              = "Array<" ++ genflowtypes.enumTypeName ⟨alwaysQualify, false⟩ e ++ ">"))
    ∧ (∀ (reg2 : descriptor.Registry) (e2 : descriptor.Enum) (alwaysQualify2 : Bool),
        reg2.LookupEnum "" f.GetTypeName = .ok e2 → e2.Value = e.Value →
        ∃ t t2, genflowtypes.fieldToType ⟨alwaysQualify, true⟩ f reg = .ok (.mk f.GetName t)
          ∧ genflowtypes.fieldToType ⟨alwaysQualify2, true⟩ f reg2
              = .ok (.mk f.GetName t2)
          ∧ t2.FlowType = t.FlowType) := by
  have hbt : ∀ (reg2 : descriptor.Registry) (e2 : descriptor.Enum) (aq2 : Bool),
      reg2.LookupEnum "" f.GetTypeName = .ok e2 →
      genflowtypes.fieldToType.base ⟨aq2, true⟩ f reg2
        = .ok (.named (.mk (genflowtypes.enumTypeName ⟨aq2, true⟩ e2)
            (.simpleFlowType (spec.quotedUnion e2)))) := by
    intro reg2 e2 aq2 h2
    simp [genflowtypes.fieldToType.base, hkind, h2, genflowtypes.enumToFlowType,
      spec.quotedUnion, strings_Join_eq_intercalate]
  have hbf : genflowtypes.fieldToType.base ⟨alwaysQualify, false⟩ f reg
      = .ok (.simpleFlowType (genflowtypes.enumTypeName ⟨alwaysQualify, false⟩ e)) := by
    simp [genflowtypes.fieldToType.base, hkind, hres]
  refine ⟨?_, ?_, ?_, ?_⟩
  · refine ⟨_, rfl, ?_⟩
    simp [genflowtypes.FlowType.FlowType, genflowtypes.namedFlowType.FlowType,
      spec.quotedUnion, strings_Join_eq_intercalate]
  · intro hl
    constructor
    · refine ⟨_, by simp only [genflowtypes.fieldToType, hbt reg e alwaysQualify hres,
        if_neg hl]; rfl, ?_⟩
      simp [genflowtypes.FlowType.FlowType, genflowtypes.namedFlowType.FlowType]
    · refine ⟨_, by simp only [genflowtypes.fieldToType, hbf, if_neg hl]; rfl, ?_⟩
      simp [genflowtypes.FlowType.FlowType]
  · intro hl
    constructor
    · refine ⟨_, by simp only [genflowtypes.fieldToType, hbt reg e alwaysQualify hres,
        if_pos hl]; rfl, ?_⟩
      simp [genflowtypes.FlowType.FlowType, genflowtypes.namedFlowType.FlowType]
    · refine ⟨_, by simp only [genflowtypes.fieldToType, hbf, if_pos hl]; rfl, ?_⟩
      simp [genflowtypes.FlowType.FlowType]
  · intro reg2 e2 aq2 h2 hv
    have hu : spec.quotedUnion e2 = spec.quotedUnion e := by
      simp only [spec.quotedUnion, hv]
    by_cases hl : f.GetLabel = FieldDescriptorProto_LABEL_REPEATED
    · refine ⟨_, _, by simp only [genflowtypes.fieldToType,
          hbt reg e alwaysQualify hres, if_pos hl]; rfl,
        by simp only [genflowtypes.fieldToType, hbt reg2 e2 aq2 h2, if_pos hl]; rfl, ?_⟩
      simp [genflowtypes.FlowType.FlowType, genflowtypes.namedFlowType.FlowType, hu]
    · refine ⟨_, _, by simp only [genflowtypes.fieldToType,
          hbt reg e alwaysQualify hres, if_neg hl]; rfl,
        by simp only [genflowtypes.fieldToType, hbt reg2 e2 aq2 h2, if_neg hl]; rfl, ?_⟩
      simp [genflowtypes.FlowType.FlowType, genflowtypes.namedFlowType.FlowType, hu]

/-- Witness of C14 (amended): the repeated field `colors` of `Pet`, an enum reference to
`Color`, renders as the array of the inlined union, or as the array of the name; resolved
to `Palette` of package `other`, which has the same value names, it renders the same. -/
theorem c14_inlined_enums_witness :
    scenario.colorsField.GetType = FieldDescriptorProto_TYPE_ENUM
    ∧ scenario.petsRegistry.LookupEnum "" scenario.colorsField.GetTypeName
        = .ok scenario.colorEnum
    ∧ scenario.colorsField.GetLabel = FieldDescriptorProto_LABEL_REPEATED
    ∧ spec.quotedUnion scenario.colorEnum = "\"RED\" | \"GREEN\" | \"BLUE\""
    ∧ ((∃ t, genflowtypes.fieldToType ⟨false, true⟩ scenario.colorsField scenario.petsRegistry
          = .ok (.mk scenario.colorsField.GetName t)
        ∧ t.FlowType = "Array<" ++ spec.quotedUnion scenario.colorEnum ++ ">")
      ∧ (∃ t, genflowtypes.fieldToType ⟨false, false⟩ scenario.colorsField
            scenario.petsRegistry
          = .ok (.mk scenario.colorsField.GetName t)
        ∧ t.FlowType
            = "Array<" ++ genflowtypes.enumTypeName ⟨false, false⟩ scenario.colorEnum ++ ">"))
    ∧ scenario.paletteRegistry.LookupEnum "" scenario.colorsField.GetTypeName
        = .ok scenario.paletteEnum
    ∧ scenario.paletteEnum.Value = scenario.colorEnum.Value
    ∧ (∃ t t2, genflowtypes.fieldToType ⟨false, true⟩ scenario.colorsField
            scenario.petsRegistry
          = .ok (.mk scenario.colorsField.GetName t)
        ∧ genflowtypes.fieldToType ⟨true, true⟩ scenario.colorsField scenario.paletteRegistry
          = .ok (.mk scenario.colorsField.GetName t2)
        ∧ t2.FlowType = t.FlowType) :=
  ⟨rfl, rfl, rfl, by decide,
    (c14_inlined_enums scenario.colorsField scenario.petsRegistry false scenario.colorEnum
      rfl rfl).2.2.1 rfl,
    rfl, rfl,
    (c14_inlined_enums scenario.colorsField scenario.petsRegistry false scenario.colorEnum
      rfl rfl).2.2.2 scenario.paletteRegistry scenario.paletteEnum true rfl rfl⟩

/-! ### The field loop as a point-wise relation -/

theorem elm_loop_of_forall2 (cfg : genelmtypes.config) (reg : descriptor.Registry)
    (fs : List descriptor.Field) (ts : List genelmtypes.namedElmType)
    (h : List.Forall₂ (fun f t => genelmtypes.fieldToType cfg f reg = .ok t) fs ts) :
    ∀ acc, genelmtypes.messageToElmType.loop cfg reg fs acc = .ok (acc ++ ts) := by
  induction h with
  | nil => intro acc; simp [genelmtypes.messageToElmType.loop]
  | cons hf _ ih =>
    intro acc
    simp only [genelmtypes.messageToElmType.loop, hf, ih, List.append_assoc,
      List.singleton_append]

theorem flow_loop_of_forall2 (cfg : genflowtypes.config) (reg : descriptor.Registry)
    (fs : List descriptor.Field) (ts : List genflowtypes.namedFlowType)
    (h : List.Forall₂ (fun f t => genflowtypes.fieldToType cfg f reg = .ok t) fs ts) :
    ∀ acc, genflowtypes.messageToFlowType.loop cfg reg fs acc = .ok (acc ++ ts) := by
  induction h with
  | nil => intro acc; simp [genflowtypes.messageToFlowType.loop]
  | cons hf _ ih =>
    intro acc
    simp only [genflowtypes.messageToFlowType.loop, hf, ih, List.append_assoc,
      List.singleton_append]

theorem elm_fieldToType_name (cfg : genelmtypes.config) (reg : descriptor.Registry)
    (f : descriptor.Field) (t : genelmtypes.namedElmType)
    (h : genelmtypes.fieldToType cfg f reg = .ok t) : t.ElmTypeName = f.GetName := by
  unfold genelmtypes.fieldToType at h
  cases hb : genelmtypes.fieldToType.base cfg f reg with
  | error err => rw [hb] at h; cases h
  | ok b =>
    rw [hb] at h
    simp only [Except.ok.injEq] at h
    subst h
    rfl

theorem flow_fieldToType_name (cfg : genflowtypes.config) (reg : descriptor.Registry)
    (f : descriptor.Field) (t : genflowtypes.namedFlowType)
    (h : genflowtypes.fieldToType cfg f reg = .ok t) : t.FlowTypeName = f.GetName := by
  unfold genflowtypes.fieldToType at h
  cases hb : genflowtypes.fieldToType.base cfg f reg with
  | error err => rw [hb] at h; cases h
  | ok b =>
    rw [hb] at h
    simp only [Except.ok.injEq] at h
    subst h
    rfl

theorem elm_fields_zipWith (cfg : genelmtypes.config) (reg : descriptor.Registry)
    (fs : List descriptor.Field) (ts : List genelmtypes.namedElmType)
    (h : List.Forall₂ (fun f t => genelmtypes.fieldToType cfg f reg = .ok t) fs ts) :
    genelmtypes.objectElmType.fields ts
      = List.zipWith (fun f t => "  " ++ f.GetName ++ ": Maybe " ++ t.ElmType) fs ts := by
  induction h with
  | nil => simp [genelmtypes.objectElmType.fields]
  | cons hf _ ih =>
    simp only [genelmtypes.objectElmType.fields, List.zipWith_cons_cons, ih,
      elm_fieldToType_name _ _ _ _ hf]

theorem flow_fields_zipWith (cfg : genflowtypes.config) (reg : descriptor.Registry)
    (fs : List descriptor.Field) (ts : List genflowtypes.namedFlowType)
    (h : List.Forall₂ (fun f t => genflowtypes.fieldToType cfg f reg = .ok t) fs ts) :
    genflowtypes.objectFlowType.fields ts
      = List.zipWith (fun f t => "  " ++ f.GetName ++ "?: " ++ t.FlowType) fs ts := by
  induction h with
  | nil => simp [genflowtypes.objectFlowType.fields]
  | cons hf _ ih =>
    simp only [genflowtypes.objectFlowType.fields, List.zipWith_cons_cons, ih,
      flow_fieldToType_name _ _ _ _ hf]

/-- C15: record body rendering.  When `fieldToType` succeeds on every field of a message,
with results `ts`, `messageToElmType` (resp. `messageToFlowType`) succeeds and the
declaration renders as an opening brace, one line per field in schema order made of two
blanks, the field's declared name, the optional mark `: Maybe ` (resp. `?: `) and the
rendering of the field's type, the lines joined by a comma and a line break, and a closing
brace. -/
theorem c15_record_body
    (m : descriptor.Message) (reg : descriptor.Registry)
    (ecfg : genelmtypes.config) (fcfg : genflowtypes.config) :
    (∀ ts, List.Forall₂ (fun f t => genelmtypes.fieldToType ecfg f reg = .ok t) m.Fields ts →
      ∃ d, genelmtypes.messageToElmType ecfg m reg = .ok d
        ∧ d.ElmType = "\x7b\n"
            ++ ",\n".intercalate
                (List.zipWith (fun f t => "  " ++ f.GetName ++ ": Maybe " ++ t.ElmType)
                  m.Fields ts)
            ++ "\n\x7d")
    ∧ (∀ ts, List.Forall₂ (fun f t => genflowtypes.fieldToType fcfg f reg = .ok t)
          m.Fields ts →
      ∃ d, genflowtypes.messageToFlowType fcfg m reg = .ok d
        ∧ d.FlowType = "\x7b\n"
            ++ ",\n".intercalate
                (List.zipWith (fun f t => "  " ++ f.GetName ++ "?: " ++ t.FlowType)
                  m.Fields ts)
            ++ "\n\x7d") := by
  constructor
  · intro ts h
    refine ⟨.named (.mk (genelmtypes.messageTypeName ecfg m) (.objectElmType ts)), ?_, ?_⟩
    · simp only [genelmtypes.messageToElmType, elm_loop_of_forall2 _ _ _ _ h [],
        List.nil_append]
    · simp only [genelmtypes.ElmType.ElmType, genelmtypes.namedElmType.ElmType,
        elm_fields_zipWith _ _ _ _ h, strings_Join_eq_intercalate]
  · intro ts h
    refine ⟨.named (.mk (genflowtypes.messageTypeName fcfg m) (.objectFlowType ts)), ?_, ?_⟩
    · simp only [genflowtypes.messageToFlowType, flow_loop_of_forall2 _ _ _ _ h [],
        List.nil_append]
    · simp only [genflowtypes.FlowType.FlowType, genflowtypes.namedFlowType.FlowType,
        flow_fields_zipWith _ _ _ _ h, strings_Join_eq_intercalate]

/-- Witness of C15: the message `Person` with its fields `name` and `age`, and the message
`Empty` without fields. -/
theorem c15_record_body_witness :
    (∃ d, genelmtypes.messageToElmType ⟨false⟩ scenario.personMessage scenario.personRegistry
        = .ok d
      ∧ d.ElmType = "\x7b\n  name: Maybe String,\n  age: Maybe Int\n\x7d")
    ∧ (∃ d, genflowtypes.messageToFlowType ⟨false, false⟩ scenario.emptyMessage
          scenario.personRegistry = .ok d
      ∧ d.FlowType = "\x7b\n\n\x7d") :=
  ⟨(c15_record_body scenario.personMessage scenario.personRegistry ⟨false⟩ ⟨false, false⟩).1
      [.mk "name" (.simpleElmType "String"), .mk "age" (.simpleElmType "Int")]
      (List.Forall₂.cons rfl (List.Forall₂.cons rfl List.Forall₂.nil)),
    (c15_record_body scenario.emptyMessage scenario.personRegistry ⟨false⟩ ⟨false, false⟩).2
      [] List.Forall₂.nil⟩

/-! ### The result slice and its rendering -/

theorem string_join_append (l₁ l₂ : List String) :
    String.join (l₁ ++ l₂) = String.join l₁ ++ String.join l₂ := by
  apply String.ext
  simp [String.data_join, String.data_append]

theorem elm_messages_shape (cfg : genelmtypes.config) (reg : descriptor.Registry)
    (ms : List descriptor.Message) (ds : List genelmtypes.ElmType)
    (h : List.Forall₂ (fun m d => genelmtypes.messageToElmType cfg m reg = .ok d) ms ds) :
    ∃ fss : List (List genelmtypes.namedElmType), fss.length = ms.length
      ∧ ds = (List.zipWith (fun m Fields =>
          genelmtypes.namedElmType.mk (genelmtypes.messageTypeName cfg m)
            (.objectElmType Fields)) ms fss).map .named := by
  induction h with
  | nil => exact ⟨[], rfl, rfl⟩
  | cons hm _ ih =>
    obtain ⟨fss, hlen, hds⟩ := ih
    obtain ⟨Fields, _, hd⟩ := elm_messageToElmType_ok _ _ _ _ hm
    exact ⟨Fields :: fss, by simp [hlen], by simp [hd, hds]⟩

theorem flow_messages_shape (cfg : genflowtypes.config) (reg : descriptor.Registry)
    (ms : List descriptor.Message) (ds : List genflowtypes.FlowType)
    (h : List.Forall₂ (fun m d => genflowtypes.messageToFlowType cfg m reg = .ok d) ms ds) :
    ∃ fss : List (List genflowtypes.namedFlowType), fss.length = ms.length
      ∧ ds = (List.zipWith (fun m Fields =>
          genflowtypes.namedFlowType.mk (genflowtypes.messageTypeName cfg m)
            (.objectFlowType Fields)) ms fss).map .named := by
  induction h with
  | nil => exact ⟨[], rfl, rfl⟩
  | cons hm _ ih =>
    obtain ⟨fss, hlen, hds⟩ := ih
    obtain ⟨Fields, _, hd⟩ := flow_messageToFlowType_ok _ _ _ _ hm
    exact ⟨Fields :: fss, by simp [hlen], by simp [hd, hds]⟩

theorem elm_range_named (ds : List genelmtypes.namedElmType) :
    genelmtypes.template.range (ds.map .named)
      = .ok (String.join (ds.map (fun d =>
          "type " ++ (if d.IsTypeAlias then "alias " else "") ++ d.ElmTypeName ++ " = "
            ++ d.ElmType ++ "\n\n"))) := by
  induction ds with
  | nil => rfl
  | cons d rest ih =>
    simp only [List.map_cons, genelmtypes.template.range, genelmtypes.ElmType.ElmTypeName?,
      ih, genelmtypes.ElmType.IsTypeAlias, genelmtypes.ElmType.ElmType, string_join_cons,
      String.append_assoc]

theorem flow_range_named (ds : List genflowtypes.namedFlowType) :
    genflowtypes.template.range (ds.map .named)
      = .ok (String.join (ds.map spec.flowEntry)) := by
  induction ds with
  | nil => rfl
  | cons d rest ih =>
    simp only [List.map_cons, genflowtypes.template.range,
      genflowtypes.FlowType.FlowTypeName?, ih, genflowtypes.FlowType.FlowType,
      string_join_cons, spec.flowEntry, String.append_assoc]

theorem elm_result_named (registry : descriptor.Registry) (qualifyTypes : Bool)
    (f : descriptor.File) (r : List genelmtypes.ElmType)
    (h : genelmtypes.generateElmTypes.messages ⟨qualifyTypes⟩ registry f.Messages
        (f.Enums.map (fun e => .named (.mk (genelmtypes.enumTypeName ⟨qualifyTypes⟩ e)
          (.simpleElmType (strings.Join (e.Value.map (fun v => v.GetName)) " | ")))))
      = .ok r) :
    ∃ fss : List (List genelmtypes.namedElmType), fss.length = f.Messages.length
      ∧ r = (f.Enums.map (fun e =>
                genelmtypes.namedElmType.mk (genelmtypes.enumTypeName ⟨qualifyTypes⟩ e)
                  (.simpleElmType (spec.bareUnion e)))
              ++ List.zipWith (fun m Fields =>
                genelmtypes.namedElmType.mk (genelmtypes.messageTypeName ⟨qualifyTypes⟩ m)
                  (.objectElmType Fields)) f.Messages fss).map .named := by
  obtain ⟨ds, hr, hds⟩ := elm_messages_ok _ _ _ _ _ h
  obtain ⟨fss, hlen, hshape⟩ := elm_messages_shape _ _ _ _ hds
  refine ⟨fss, hlen, ?_⟩
  rw [hr, hshape]
  simp [spec.bareUnion, strings_Join_eq_intercalate, Function.comp_def]

theorem flow_result_named (registry : descriptor.Registry) (qualifyTypes embedEnums : Bool)
    (f : descriptor.File) (r : List genflowtypes.FlowType)
    (h : genflowtypes.generateFlowTypes.messages ⟨qualifyTypes, embedEnums⟩ registry
        f.Messages
        (f.Enums.map (fun e => .named (.mk
          (genflowtypes.enumTypeName ⟨qualifyTypes, embedEnums⟩ e)
          (.simpleFlowType
            (strings.Join (e.Value.map (fun v => "\"" ++ v.GetName ++ "\"")) " | ")))))
      = .ok r) :
    ∃ fss : List (List genflowtypes.namedFlowType), fss.length = f.Messages.length
      ∧ r = (f.Enums.map (fun e =>
                genflowtypes.namedFlowType.mk
                  (genflowtypes.enumTypeName ⟨qualifyTypes, embedEnums⟩ e)
                  (.simpleFlowType (spec.quotedUnion e)))
              ++ List.zipWith (fun m Fields =>
                genflowtypes.namedFlowType.mk
                  (genflowtypes.messageTypeName ⟨qualifyTypes, embedEnums⟩ m)
                  (.objectFlowType Fields)) f.Messages fss).map .named := by
  obtain ⟨ds, hr, hds⟩ := flow_messages_ok _ _ _ _ _ h
  obtain ⟨fss, hlen, hshape⟩ := flow_messages_shape _ _ _ _ hds
  refine ⟨fss, hlen, ?_⟩
  rw [hr, hshape]
  simp [spec.quotedUnion, strings_Join_eq_intercalate, Function.comp_def]

theorem type_alias_append (x : String) : "type " ++ ("alias " ++ x) = "type alias " ++ x := by
  rw [← String.append_assoc]
  rfl

theorem alias_prefix_list (l t : List Char) :
    ['a', 'l', 'i', 'a', 's', ' '] <+: l ++ ' ' :: t
      ↔ (l = ['a', 'l', 'i', 'a', 's'] ∨ ['a', 'l', 'i', 'a', 's', ' '] <+: l) := by
  rcases l with _ | ⟨c1, _ | ⟨c2, _ | ⟨c3, _ | ⟨c4, _ | ⟨c5, _ | ⟨c6, l⟩⟩⟩⟩⟩⟩ <;>
    simp [List.cons_prefix_cons]
  constructor <;> rintro ⟨rfl, rfl, rfl, rfl, rfl⟩ <;> simp

theorem alias_entry_iff (name rest : String) :
    "type alias ".data <+: ("type " ++ name ++ " = " ++ rest).data
      ↔ (name = "alias" ∨ "alias ".data <+: name.data) := by
  have h := alias_prefix_list name.data ('=' :: ' ' :: rest.data)
  have h1 : ("type " ++ name ++ " = " ++ rest).data
      = 't' :: 'y' :: 'p' :: 'e' :: ' ' :: (name.data ++ ' ' :: '=' :: ' ' :: rest.data) := by
    simp only [String.data_append]
    simp
  have h2 : "type alias ".data
      = 't' :: 'y' :: 'p' :: 'e' :: ' ' :: ['a', 'l', 'i', 'a', 's', ' '] := rfl
  have h3 : "alias ".data = ['a', 'l', 'i', 'a', 's', ' '] := rfl
  have h4 : name = "alias" ↔ name.data = ['a', 'l', 'i', 'a', 's'] :=
    ⟨fun e => e ▸ rfl, fun e => String.ext e⟩
  rw [h1, h2, h3, h4]
  simp only [List.cons_prefix_cons, true_and]
  exact h

theorem zipWith_zipWith_left {α β γ δ : Type} (g : α → γ → δ) (k : α → β → γ) :
    ∀ (xs : List α) (ys : List β),
    List.zipWith g xs (List.zipWith k xs ys) = List.zipWith (fun x y => g x (k x y)) xs ys := by
  intro xs
  induction xs with
  | nil => intro ys; simp
  | cons x rest ih =>
    intro ys
    cases ys with
    | nil => simp
    | cons y ys => simp [ih]

/-- C16, as stated, fails: the enum `alias` of package `example` has the public name
`alias`, and its entry in the text of `generateElmTypes` is `type alias = X`: a line that
starts with `type alias ` although the declaration comes from an enum, in a file that has
no message at all. -/
theorem c16_alias_marks_records_counterexample :
    scenario.aliasFile.Messages = []
    ∧ genelmtypes.enumTypeName ⟨false⟩ scenario.aliasEnum = "alias"
    ∧ genelmtypes.generateElmTypes scenario.aliasFile scenario.aliasRegistry false
      = ("-- this is a generated file\ntype alias = X\n\n", none)
    ∧ "type alias ".data <+: "type alias = X\n\n".data := by
  decide

/-- C16, amended: the alias keyword is written for records only.  Every declaration
`messageToElmType` builds reports `IsTypeAlias = true` and every declaration
`enumToElmType` builds reports `IsTypeAlias = false`; so a text of `generateElmTypes` is
the banner, then for each enum in order the entry `type Name = Body`, then for each message
in order, with the declaration `messageToElmType` builds for it, the entry
`type alias Name = Body`.  A message entry always starts with `type alias `; an enum entry
does so exactly when the enum's public name is `alias` or starts with `alias `. -/
theorem c16_alias_marks_records
    (file : descriptor.File) (registry : descriptor.Registry) (qualifyTypes : Bool)
    (f : descriptor.File)
    (hfile : registry.LookupFile file.GetName = .ok f) :
    (∀ m d, genelmtypes.messageToElmType ⟨qualifyTypes⟩ m registry = .ok d →
      d.IsTypeAlias = true)
    ∧ (∀ e, ∃ d, genelmtypes.enumToElmType ⟨qualifyTypes⟩ e registry = .ok d
        ∧ d.IsTypeAlias = false)
    ∧ (∀ text, genelmtypes.generateElmTypes file registry qualifyTypes = (text, none) →
        ∃ mds : List genelmtypes.ElmType,
          List.Forall₂
            (fun m d => genelmtypes.messageToElmType ⟨qualifyTypes⟩ m registry = .ok d)
            f.Messages mds
          ∧ text = "-- this is a generated file\n"
              ++ String.join (f.Enums.map (fun e =>
                  "type " ++ genelmtypes.enumTypeName ⟨qualifyTypes⟩ e ++ " = "
                    ++ (spec.bareUnion e ++ "\n\n")))
              ++ String.join (List.zipWith (fun m d =>
                  "type alias " ++ genelmtypes.messageTypeName ⟨qualifyTypes⟩ m ++ " = "
                    ++ (d.ElmType ++ "\n\n")) f.Messages mds))
    ∧ (∀ name rest : String,
        "type alias ".data <+: ("type alias " ++ name ++ " = " ++ rest).data)
    ∧ (∀ name rest : String,
        "type alias ".data <+: ("type " ++ name ++ " = " ++ rest).data
          ↔ (name = "alias" ∨ "alias ".data <+: name.data)) := by
  refine ⟨?_, ?_, ?_, ?_, alias_entry_iff⟩
  · intro m d hd
    obtain ⟨Fields, _, rfl⟩ := elm_messageToElmType_ok _ _ _ _ hd
    simp [genelmtypes.ElmType.IsTypeAlias, genelmtypes.namedElmType.IsTypeAlias]
  · intro e
    refine ⟨_, rfl, ?_⟩
    simp [genelmtypes.ElmType.IsTypeAlias, genelmtypes.namedElmType.IsTypeAlias]
  · intro text h
    simp only [genelmtypes.generateElmTypes, hfile, elm_enums_eq, List.nil_append] at h
    cases hm : genelmtypes.generateElmTypes.messages ⟨qualifyTypes⟩ registry f.Messages
        (f.Enums.map (fun e => .named (.mk (genelmtypes.enumTypeName ⟨qualifyTypes⟩ e)
          (.simpleElmType (strings.Join (e.Value.map (fun v => v.GetName)) " | "))))) with
    | error err => rw [hm] at h; simp at h
    | ok r =>
      rw [hm] at h
      obtain ⟨ds, hr, hds⟩ := elm_messages_ok _ _ _ _ _ hm
      obtain ⟨fss, hlen, hshape⟩ := elm_messages_shape _ _ _ _ hds
      refine ⟨ds, hds, ?_⟩
      have hr2 : r = (f.Enums.map (fun e =>
              genelmtypes.namedElmType.mk (genelmtypes.enumTypeName ⟨qualifyTypes⟩ e)
                (.simpleElmType (spec.bareUnion e)))
            ++ List.zipWith (fun m Fields =>
              genelmtypes.namedElmType.mk (genelmtypes.messageTypeName ⟨qualifyTypes⟩ m)
                (.objectElmType Fields)) f.Messages fss).map .named := by
        rw [hr, hshape]
        simp [spec.bareUnion, strings_Join_eq_intercalate, Function.comp_def]
      rw [hr2] at h
      simp only [genelmtypes.template.Execute, elm_range_named, Prod.mk.injEq,
        and_true] at h
      rw [← h, hshape, List.map_zipWith, zipWith_zipWith_left]
      simp [List.map_append, string_join_append, List.map_zipWith,
        genelmtypes.namedElmType.IsTypeAlias, genelmtypes.ElmType.IsTypeAlias,
        genelmtypes.namedElmType.ElmTypeName, genelmtypes.namedElmType.ElmType,
        genelmtypes.ElmType.ElmType, Function.comp_def, String.append_assoc,
        type_alias_append]
  · intro name rest
    refine ⟨(name ++ " = " ++ rest).data, ?_⟩
    simp [String.data_append]

/-- Witness of C16 (amended): in the text for `pets.proto` the two enums come without
`alias` and the two messages with it; the entry of an enum named `alias` starts with
`type alias `, the entry of `Status` does not. -/
theorem c16_alias_marks_records_witness :
    scenario.petsRegistry.LookupFile scenario.petsFile.GetName = .ok scenario.petsFile
    ∧ genelmtypes.generateElmTypes scenario.petsFile scenario.petsRegistry false
      = ("-- this is a generated file\ntype Status = ACTIVE | INACTIVE\n\ntype Color = RED | GREEN | BLUE\n\ntype alias Pet = \x7b\n  owner: Maybe Person,\n  colors: Maybe List Color\n\x7d\n\ntype alias Person = \x7b\n  name: Maybe String,\n  age: Maybe Int\n\x7d\n\n", none)
    ∧ (∃ mds : List genelmtypes.ElmType,
        List.Forall₂
          (fun m d => genelmtypes.messageToElmType ⟨false⟩ m scenario.petsRegistry = .ok d)
          scenario.petsFile.Messages mds
        ∧ (genelmtypes.generateElmTypes scenario.petsFile scenario.petsRegistry false).1
          = "-- this is a generated file\n"
              ++ String.join (scenario.petsFile.Enums.map (fun e =>
                  "type " ++ genelmtypes.enumTypeName ⟨false⟩ e ++ " = "
                    ++ (spec.bareUnion e ++ "\n\n")))
              ++ String.join (List.zipWith (fun m d =>
                  "type alias " ++ genelmtypes.messageTypeName ⟨false⟩ m ++ " = "
                    ++ (d.ElmType ++ "\n\n")) scenario.petsFile.Messages mds))
    ∧ "type alias ".data <+: ("type " ++ "alias" ++ " = " ++ "X\n\n").data
    ∧ ¬ "type alias ".data <+: ("type " ++ "Status" ++ " = " ++ "ACTIVE | INACTIVE\n\n").data :=
  ⟨rfl, by decide,
    (c16_alias_marks_records scenario.petsFile scenario.petsRegistry false scenario.petsFile
      rfl).2.2.1 _ (by decide),
    ((c16_alias_marks_records scenario.petsFile scenario.petsRegistry false
      scenario.petsFile rfl).2.2.2.2 "alias" "X\n\n").mpr (Or.inl rfl),
    fun h => absurd
      (((c16_alias_marks_records scenario.petsFile scenario.petsRegistry false
        scenario.petsFile rfl).2.2.2.2 "Status" "ACTIVE | INACTIVE\n\n").mp h)
      (by decide)⟩

theorem elm_result_decls (registry : descriptor.Registry) (qualifyTypes : Bool)
    (f : descriptor.File) (r : List genelmtypes.ElmType)
    (h : genelmtypes.generateElmTypes.messages ⟨qualifyTypes⟩ registry f.Messages
        (f.Enums.map (fun e => .named (.mk (genelmtypes.enumTypeName ⟨qualifyTypes⟩ e)
          (.simpleElmType (strings.Join (e.Value.map (fun v => v.GetName)) " | ")))))
      = .ok r) :
    ∃ ds : List genelmtypes.namedElmType, r = ds.map .named
      ∧ ds.length = f.Enums.length + f.Messages.length
      ∧ ds.map (fun d =>
          "type " ++ (if d.IsTypeAlias then "alias " else "") ++ d.ElmTypeName ++ " = "
            ++ d.ElmType ++ "\n\n") = ds.map spec.elmEntry := by
  obtain ⟨fss, hlen, hr⟩ := elm_result_named _ _ _ _ h
  refine ⟨_, hr, by simp [hlen], ?_⟩
  simp [List.map_append, List.map_zipWith, spec.elmEntry, spec.isRecord,
    genelmtypes.namedElmType.IsTypeAlias, genelmtypes.ElmType.IsTypeAlias,
    Function.comp_def]

/-- C17: output structure.  Whenever generation succeeds, the result slice is a sequence
`ds` of named declarations, as many as the file has enums and messages together, and the
text is the banner followed, for each declaration in order, by its entry:
`export type Name = Body;` and an empty line in the structural dialect, `type Name = Body`
(with `alias` before the name of a record) and an empty line in the functional dialect.
A file with neither enums nor messages yields the banner alone. -/
theorem c17_output_structure
    (file : descriptor.File) (registry : descriptor.Registry) (qualifyTypes embedEnums : Bool)
    (f : descriptor.File)
    (hfile : registry.LookupFile file.GetName = .ok f) :
    (∀ text, genflowtypes.generateFlowTypes file registry qualifyTypes embedEnums
        = (text, none) →
      ∃ ds : List genflowtypes.namedFlowType,
        (∃ r0, genflowtypes.generateFlowTypes.enums ⟨qualifyTypes, embedEnums⟩ registry
              f.Enums [] = .ok r0
          ∧ genflowtypes.generateFlowTypes.messages ⟨qualifyTypes, embedEnums⟩ registry
              f.Messages r0 = .ok (ds.map .named))
        ∧ ds.length = f.Enums.length + f.Messages.length
        ∧ text = "/* @flow */\n" ++ String.join (ds.map spec.flowEntry))
    ∧ (∀ text, genelmtypes.generateElmTypes file registry qualifyTypes = (text, none) →
      ∃ ds : List genelmtypes.namedElmType,
        (∃ r0, genelmtypes.generateElmTypes.enums ⟨qualifyTypes⟩ registry f.Enums []
              = .ok r0
          ∧ genelmtypes.generateElmTypes.messages ⟨qualifyTypes⟩ registry f.Messages r0
              = .ok (ds.map .named))
        ∧ ds.length = f.Enums.length + f.Messages.length
        ∧ text = "-- this is a generated file\n" ++ String.join (ds.map spec.elmEntry))
    ∧ (f.Enums = [] → f.Messages = [] →
        genflowtypes.generateFlowTypes file registry qualifyTypes embedEnums
          = ("/* @flow */\n", none)
        ∧ genelmtypes.generateElmTypes file registry qualifyTypes
          = ("-- this is a generated file\n", none)) := by
  refine ⟨?_, ?_, ?_⟩
  · intro text h
    simp only [genflowtypes.generateFlowTypes, hfile, flow_enums_eq, List.nil_append] at h
    cases hm : genflowtypes.generateFlowTypes.messages ⟨qualifyTypes, embedEnums⟩ registry
        f.Messages
        (f.Enums.map (fun e => .named (.mk
          (genflowtypes.enumTypeName ⟨qualifyTypes, embedEnums⟩ e)
          (.simpleFlowType
            (strings.Join (e.Value.map (fun v => "\"" ++ v.GetName ++ "\"")) " | "))))) with
    | error err => rw [hm] at h; simp at h
    | ok r =>
      rw [hm] at h
      obtain ⟨fss, hlen, hr⟩ := flow_result_named _ _ _ _ _ hm
      rw [hr] at h hm
      simp only [genflowtypes.template.Execute, flow_range_named, Prod.mk.injEq,
        and_true] at h
      refine ⟨_, ⟨_, flow_enums_eq _ _ _ _, ?_⟩, ?_, h.symm⟩
      · rw [List.nil_append]; exact hm
      · simp [hlen]
  · intro text h
    simp only [genelmtypes.generateElmTypes, hfile, elm_enums_eq, List.nil_append] at h
    cases hm : genelmtypes.generateElmTypes.messages ⟨qualifyTypes⟩ registry f.Messages
        (f.Enums.map (fun e => .named (.mk (genelmtypes.enumTypeName ⟨qualifyTypes⟩ e)
          (.simpleElmType (strings.Join (e.Value.map (fun v => v.GetName)) " | "))))) with
    | error err => rw [hm] at h; simp at h
    | ok r =>
      rw [hm] at h
      obtain ⟨ds, hr, hlen, hentries⟩ := elm_result_decls _ _ _ _ hm
      rw [hr] at h hm
      simp only [genelmtypes.template.Execute, elm_range_named, Prod.mk.injEq,
        and_true, hentries] at h
      refine ⟨ds, ⟨_, elm_enums_eq _ _ _ _, ?_⟩, hlen, h.symm⟩
      rw [List.nil_append]; exact hm
  · intro he hms
    constructor
    · simp [genflowtypes.generateFlowTypes, hfile, he, hms,
        genflowtypes.generateFlowTypes.enums, genflowtypes.generateFlowTypes.messages,
        genflowtypes.template.Execute, genflowtypes.template.range]
    · simp [genelmtypes.generateElmTypes, hfile, he, hms,
        genelmtypes.generateElmTypes.enums, genelmtypes.generateElmTypes.messages,
        genelmtypes.template.Execute, genelmtypes.template.range]

/-- Witness of C17: `pets.proto` yields four entries after the banner in both dialects, and
`empty.proto` the banner alone. -/
theorem c17_output_structure_witness :
    scenario.petsRegistry.LookupFile scenario.petsFile.GetName = .ok scenario.petsFile
    ∧ (∃ ds : List genflowtypes.namedFlowType,
        (∃ r0, genflowtypes.generateFlowTypes.enums ⟨false, true⟩ scenario.petsRegistry
              scenario.petsFile.Enums [] = .ok r0
          ∧ genflowtypes.generateFlowTypes.messages ⟨false, true⟩ scenario.petsRegistry
              scenario.petsFile.Messages r0 = .ok (ds.map .named))
        ∧ ds.length = scenario.petsFile.Enums.length + scenario.petsFile.Messages.length
        ∧ (genflowtypes.generateFlowTypes scenario.petsFile scenario.petsRegistry
              false true).1
          = "/* @flow */\n" ++ String.join (ds.map spec.flowEntry))
    ∧ (∃ ds : List genelmtypes.namedElmType,
        (∃ r0, genelmtypes.generateElmTypes.enums ⟨false⟩ scenario.petsRegistry
              scenario.petsFile.Enums [] = .ok r0
          ∧ genelmtypes.generateElmTypes.messages ⟨false⟩ scenario.petsRegistry
              scenario.petsFile.Messages r0 = .ok (ds.map .named))
        ∧ ds.length = scenario.petsFile.Enums.length + scenario.petsFile.Messages.length
        ∧ (genelmtypes.generateElmTypes scenario.petsFile scenario.petsRegistry false).1
          = "-- this is a generated file\n" ++ String.join (ds.map spec.elmEntry))
    ∧ genflowtypes.generateFlowTypes scenario.emptyFile scenario.emptyRegistry false true
        = ("/* @flow */\n", none)
    ∧ genelmtypes.generateElmTypes scenario.emptyFile scenario.emptyRegistry false
        = ("-- this is a generated file\n", none) :=
  ⟨rfl,
    (c17_output_structure scenario.petsFile scenario.petsRegistry false true
      scenario.petsFile rfl).1 _ (by decide),
    (c17_output_structure scenario.petsFile scenario.petsRegistry false true
      scenario.petsFile rfl).2.1 _ (by decide),
    (c17_output_structure scenario.emptyFile scenario.emptyRegistry false true
      scenario.emptyFile rfl).2.2 rfl rfl⟩

/-! ### Generation succeeds when every reference resolves -/

theorem elm_messages_success (cfg : genelmtypes.config) (reg : descriptor.Registry) :
    ∀ (ms : List descriptor.Message) (result : List genelmtypes.ElmType),
    (∀ m ∈ ms, ∀ g ∈ m.Fields, spec.fieldError reg g = none) →
    ∃ r, genelmtypes.generateElmTypes.messages cfg reg ms result = .ok r := by
  intro ms
  induction ms with
  | nil => intro result _; exact ⟨result, rfl⟩
  | cons m rest ih =>
    intro result h
    have hm : m.Fields.findSome? (spec.fieldError reg) = none :=
      List.findSome?_eq_none_iff.mpr (h m (List.mem_cons_self _ _))
    obtain ⟨Fields, hF⟩ := elm_loop_ok cfg reg m.Fields [] hm
    simp only [genelmtypes.generateElmTypes.messages, genelmtypes.messageToElmType, hF]
    exact ih _ (fun m' hm' => h m' (List.mem_cons_of_mem _ hm'))

theorem flow_messages_success (cfg : genflowtypes.config) (reg : descriptor.Registry) :
    ∀ (ms : List descriptor.Message) (result : List genflowtypes.FlowType),
    (∀ m ∈ ms, ∀ g ∈ m.Fields, spec.fieldError reg g = none) →
    ∃ r, genflowtypes.generateFlowTypes.messages cfg reg ms result = .ok r := by
  intro ms
  induction ms with
  | nil => intro result _; exact ⟨result, rfl⟩
  | cons m rest ih =>
    intro result h
    have hm : m.Fields.findSome? (spec.fieldError reg) = none :=
      List.findSome?_eq_none_iff.mpr (h m (List.mem_cons_self _ _))
    obtain ⟨Fields, hF⟩ := flow_loop_ok cfg reg m.Fields [] hm
    simp only [genflowtypes.generateFlowTypes.messages, genflowtypes.messageToFlowType, hF]
    exact ih _ (fun m' hm' => h m' (List.mem_cons_of_mem _ hm'))

theorem fieldError_none_of_resolved (reg : descriptor.Registry) (g : descriptor.Field)
    (hmsg : g.GetType = FieldDescriptorProto_TYPE_MESSAGE →
      ∃ m, reg.LookupMsg "" g.GetTypeName = .ok m)
    (henum : g.GetType = FieldDescriptorProto_TYPE_ENUM →
      ∃ e, reg.LookupEnum "" g.GetTypeName = .ok e) :
    spec.fieldError reg g = none := by
  unfold spec.fieldError
  by_cases hm : g.GetType = FieldDescriptorProto_TYPE_MESSAGE
  · obtain ⟨m, hl⟩ := hmsg hm
    rw [if_pos hm, hl]
  · rw [if_neg hm]
    by_cases he : g.GetType = FieldDescriptorProto_TYPE_ENUM
    · obtain ⟨e, hl⟩ := henum he
      rw [if_pos he, hl]
    · rw [if_neg he]

/-- C18: resolution failures are the only failures.  If the registry resolves the file's
name and the type name of every message-kind and enum-kind field of every message of the
resolved file, both generators return a text and no error.  A field of any other kind
(group, bytes, unknown, scalar) never makes `fieldToType` fail, and executing the template
on a result slice the two loops have built never fails. -/
theorem c18_only_resolution_fails
    (file : descriptor.File) (registry : descriptor.Registry) (qualifyTypes embedEnums : Bool)
    (f : descriptor.File)
    (hfile : registry.LookupFile file.GetName = .ok f)
    (hres : ∀ m ∈ f.Messages, ∀ g ∈ m.Fields,
      (g.GetType = FieldDescriptorProto_TYPE_MESSAGE →
        ∃ m', registry.LookupMsg "" g.GetTypeName = .ok m')
      ∧ (g.GetType = FieldDescriptorProto_TYPE_ENUM →
        ∃ e, registry.LookupEnum "" g.GetTypeName = .ok e)) :
    (∃ text, genelmtypes.generateElmTypes file registry qualifyTypes = (text, none))
    ∧ (∃ text, genflowtypes.generateFlowTypes file registry qualifyTypes embedEnums
        = (text, none))
    ∧ (∀ g : descriptor.Field, g.GetType ≠ FieldDescriptorProto_TYPE_MESSAGE →
        g.GetType ≠ FieldDescriptorProto_TYPE_ENUM →
        (∃ t, genelmtypes.fieldToType ⟨qualifyTypes⟩ g registry = .ok t)
        ∧ (∃ t, genflowtypes.fieldToType ⟨qualifyTypes, embedEnums⟩ g registry = .ok t))
    ∧ (∀ r0 r, genelmtypes.generateElmTypes.enums ⟨qualifyTypes⟩ registry f.Enums []
          = .ok r0 →
        genelmtypes.generateElmTypes.messages ⟨qualifyTypes⟩ registry f.Messages r0 = .ok r →
        ∃ text, genelmtypes.template.Execute r = .ok text)
    ∧ (∀ r0 r, genflowtypes.generateFlowTypes.enums ⟨qualifyTypes, embedEnums⟩ registry
          f.Enums [] = .ok r0 →
        genflowtypes.generateFlowTypes.messages ⟨qualifyTypes, embedEnums⟩ registry
          f.Messages r0 = .ok r →
        ∃ text, genflowtypes.template.Execute r = .ok text) := by
  have hnone : ∀ m ∈ f.Messages, ∀ g ∈ m.Fields, spec.fieldError registry g = none :=
    fun m hm g hg => fieldError_none_of_resolved registry g (hres m hm g hg).1
      (hres m hm g hg).2
  have hrenderE : ∀ r0 r, genelmtypes.generateElmTypes.enums ⟨qualifyTypes⟩ registry
        f.Enums [] = .ok r0 →
      genelmtypes.generateElmTypes.messages ⟨qualifyTypes⟩ registry f.Messages r0 = .ok r →
      ∃ text, genelmtypes.template.Execute r = .ok text := by
    intro r0 r h0 hr
    rw [elm_enums_eq, List.nil_append, Except.ok.injEq] at h0
    subst h0
    obtain ⟨ds, hds, _, _⟩ := elm_result_decls _ _ _ _ hr
    rw [hds]
    simp only [genelmtypes.template.Execute, elm_range_named]
    exact ⟨_, rfl⟩
  have hrenderF : ∀ r0 r, genflowtypes.generateFlowTypes.enums ⟨qualifyTypes, embedEnums⟩
        registry f.Enums [] = .ok r0 →
      genflowtypes.generateFlowTypes.messages ⟨qualifyTypes, embedEnums⟩ registry
        f.Messages r0 = .ok r →
      ∃ text, genflowtypes.template.Execute r = .ok text := by
    intro r0 r h0 hr
    rw [flow_enums_eq, List.nil_append, Except.ok.injEq] at h0
    subst h0
    obtain ⟨fss, _, hds⟩ := flow_result_named _ _ _ _ _ hr
    rw [hds]
    simp only [genflowtypes.template.Execute, flow_range_named]
    exact ⟨_, rfl⟩
  refine ⟨?_, ?_, ?_, hrenderE, hrenderF⟩
  · obtain ⟨r0, h0⟩ := elm_enums_ok ⟨qualifyTypes⟩ registry f.Enums []
    obtain ⟨r, hr⟩ := elm_messages_success ⟨qualifyTypes⟩ registry f.Messages r0 hnone
    obtain ⟨text, ht⟩ := hrenderE r0 r h0 hr
    exact ⟨text, by simp only [genelmtypes.generateElmTypes, hfile, h0, hr, ht]⟩
  · obtain ⟨r0, h0⟩ := flow_enums_ok ⟨qualifyTypes, embedEnums⟩ registry f.Enums []
    obtain ⟨r, hr⟩ := flow_messages_success ⟨qualifyTypes, embedEnums⟩ registry
      f.Messages r0 hnone
    obtain ⟨text, ht⟩ := hrenderF r0 r h0 hr
    exact ⟨text, by simp only [genflowtypes.generateFlowTypes, hfile, h0, hr, ht]⟩
  · intro g hm he
    have hg : spec.fieldError registry g = none :=
      fieldError_none_of_resolved registry g (fun h => absurd h hm) (fun h => absurd h he)
    exact ⟨elm_fieldToType_of_fieldError_none _ _ _ hg,
      flow_fieldToType_of_fieldError_none _ _ _ hg⟩

/-- Witness of C18: every reference of `pets.proto` resolves, and both generators return a
text and no error. -/
theorem c18_only_resolution_fails_witness :
    scenario.petsRegistry.LookupFile scenario.petsFile.GetName = .ok scenario.petsFile
    ∧ (∀ m ∈ scenario.petsFile.Messages, ∀ g ∈ m.Fields,
      (g.GetType = FieldDescriptorProto_TYPE_MESSAGE →
        ∃ m', scenario.petsRegistry.LookupMsg "" g.GetTypeName = .ok m')
      ∧ (g.GetType = FieldDescriptorProto_TYPE_ENUM →
        ∃ e, scenario.petsRegistry.LookupEnum "" g.GetTypeName = .ok e))
    ∧ (∃ text, genelmtypes.generateElmTypes scenario.petsFile scenario.petsRegistry true
        = (text, none))
    ∧ (∃ text, genflowtypes.generateFlowTypes scenario.petsFile scenario.petsRegistry
        true true = (text, none)) := by
  have hres : ∀ m ∈ scenario.petsFile.Messages, ∀ g ∈ m.Fields,
      (g.GetType = FieldDescriptorProto_TYPE_MESSAGE →
        ∃ m', scenario.petsRegistry.LookupMsg "" g.GetTypeName = .ok m')
      ∧ (g.GetType = FieldDescriptorProto_TYPE_ENUM →
        ∃ e, scenario.petsRegistry.LookupEnum "" g.GetTypeName = .ok e) := by
    intro m hm g hg
    simp only [scenario.petsFile, List.mem_cons, List.mem_singleton, List.mem_nil_iff,
      or_false] at hm
    rcases hm with rfl | rfl
    · simp only [scenario.petMessage, List.mem_cons, List.mem_singleton, List.mem_nil_iff,
        or_false] at hg
      rcases hg with rfl | rfl
      · exact ⟨fun _ => ⟨_, rfl⟩, fun h => absurd h (by decide)⟩
      · exact ⟨fun h => absurd h (by decide), fun _ => ⟨_, rfl⟩⟩
    · simp only [scenario.personMessage, List.mem_cons, List.mem_singleton,
        List.mem_nil_iff, or_false] at hg
      rcases hg with rfl | rfl
      · exact ⟨fun h => absurd h (by decide), fun h => absurd h (by decide)⟩
      · exact ⟨fun h => absurd h (by decide), fun h => absurd h (by decide)⟩
  exact ⟨rfl, hres,
    (c18_only_resolution_fails scenario.petsFile scenario.petsRegistry true true
      scenario.petsFile rfl hres).1,
    (c18_only_resolution_fails scenario.petsFile scenario.petsRegistry true true
      scenario.petsFile rfl hres).2.1⟩

/-- C19: the file argument is used only through its name.  Two file arguments with the same
name give the same text and the same error, in either dialect, whatever enums and messages
they carry themselves; when the registry resolves the name to `f`, the result is that of
`f`'s own enums and messages under that name; and when the registry does not resolve the
name, the result is the empty text with the registry's error. -/
theorem c19_file_by_name
    (file1 file2 : descriptor.File) (registry : descriptor.Registry)
    (qualifyTypes embedEnums : Bool)
    (hname : file1.GetName = file2.GetName) :
    genelmtypes.generateElmTypes file1 registry qualifyTypes
      = genelmtypes.generateElmTypes file2 registry qualifyTypes
    ∧ genflowtypes.generateFlowTypes file1 registry qualifyTypes embedEnums
      = genflowtypes.generateFlowTypes file2 registry qualifyTypes embedEnums
    ∧ (∀ f, registry.LookupFile file1.GetName = .ok f →
        genelmtypes.generateElmTypes file1 registry qualifyTypes
          = genelmtypes.generateElmTypes { f with GetName := file1.GetName } registry
              qualifyTypes
        ∧ genflowtypes.generateFlowTypes file1 registry qualifyTypes embedEnums
          = genflowtypes.generateFlowTypes { f with GetName := file1.GetName } registry
              qualifyTypes embedEnums)
    ∧ (∀ err, registry.LookupFile file1.GetName = .error err →
        genelmtypes.generateElmTypes file1 registry qualifyTypes = ("", some err)
        ∧ genelmtypes.generateElmTypes file2 registry qualifyTypes = ("", some err)
        ∧ genflowtypes.generateFlowTypes file1 registry qualifyTypes embedEnums
          = ("", some err)
        ∧ genflowtypes.generateFlowTypes file2 registry qualifyTypes embedEnums
          = ("", some err)) := by
  refine ⟨?_, ?_, ?_, ?_⟩
  · simp only [genelmtypes.generateElmTypes, hname]
  · simp only [genflowtypes.generateFlowTypes, hname]
  · intro f _
    exact ⟨rfl, rfl⟩
  · intro err herr
    have herr2 : registry.LookupFile file2.GetName = .error err := hname ▸ herr
    simp only [genelmtypes.generateElmTypes, genflowtypes.generateFlowTypes, herr, herr2,
      and_self]

/-- Witness of C19: a file argument named `pets.proto` that carries nothing gives the text
of the registry's `pets.proto`; a name the registry does not know gives its error. -/
theorem c19_file_by_name_witness :
    ({ GetName := "pets.proto", Enums := [], Messages := [] } : descriptor.File).GetName
      = scenario.petsFile.GetName
    ∧ genelmtypes.generateElmTypes { GetName := "pets.proto", Enums := [], Messages := [] }
        scenario.petsRegistry false
      = genelmtypes.generateElmTypes scenario.petsFile scenario.petsRegistry false
    ∧ genflowtypes.generateFlowTypes { GetName := "pets.proto", Enums := [], Messages := [] }
        scenario.petsRegistry false true
      = genflowtypes.generateFlowTypes scenario.petsFile scenario.petsRegistry false true
    ∧ scenario.petsRegistry.LookupFile scenario.personFile.GetName
      = .error "no such file given: person.proto"
    ∧ genelmtypes.generateElmTypes scenario.personFile scenario.petsRegistry false
      = ("", some "no such file given: person.proto") :=
  ⟨rfl,
    (c19_file_by_name { GetName := "pets.proto", Enums := [], Messages := [] }
      scenario.petsFile scenario.petsRegistry false true rfl).1,
    (c19_file_by_name { GetName := "pets.proto", Enums := [], Messages := [] }
      scenario.petsFile scenario.petsRegistry false true rfl).2.1,
    rfl,
    ((c19_file_by_name scenario.personFile scenario.personFile scenario.petsRegistry
      false true rfl).2.2.2 "no such file given: person.proto" rfl).1⟩

/-- C20: the four copies of the Name Qualifier are one function.  For every fully-qualified
name `n`, package prefix `p` and flag `alwaysQualify`, `enumTypeName` and `messageTypeName`
of both packages return the same string, and the structural dialect's result does not
depend on `embedEnums`. -/
theorem c20_one_qualifier
    (n p : String) (alwaysQualify embedEnums embedEnums2 : Bool)
    (fields : List descriptor.Field) (values : List pbdescriptor.EnumValueDescriptorProto) :
    genelmtypes.enumTypeName ⟨alwaysQualify⟩ { FQEN := n, File := ⟨⟨p⟩⟩, Value := values }
      = genelmtypes.messageTypeName ⟨alwaysQualify⟩
          { FQMN := n, File := ⟨⟨p⟩⟩, Fields := fields }
    ∧ genflowtypes.enumTypeName ⟨alwaysQualify, embedEnums⟩
          { FQEN := n, File := ⟨⟨p⟩⟩, Value := values }
      = genelmtypes.messageTypeName ⟨alwaysQualify⟩
          { FQMN := n, File := ⟨⟨p⟩⟩, Fields := fields }
    ∧ genflowtypes.messageTypeName ⟨alwaysQualify, embedEnums⟩
          { FQMN := n, File := ⟨⟨p⟩⟩, Fields := fields }
      = genelmtypes.messageTypeName ⟨alwaysQualify⟩
          { FQMN := n, File := ⟨⟨p⟩⟩, Fields := fields }
    ∧ genflowtypes.enumTypeName ⟨alwaysQualify, embedEnums⟩
          { FQEN := n, File := ⟨⟨p⟩⟩, Value := values }
      = genflowtypes.enumTypeName ⟨alwaysQualify, embedEnums2⟩
          { FQEN := n, File := ⟨⟨p⟩⟩, Value := values }
    ∧ genflowtypes.messageTypeName ⟨alwaysQualify, embedEnums⟩
          { FQMN := n, File := ⟨⟨p⟩⟩, Fields := fields }
      = genflowtypes.messageTypeName ⟨alwaysQualify, embedEnums2⟩
          { FQMN := n, File := ⟨⟨p⟩⟩, Fields := fields } := by
  simp only [elm_enumTypeName_eq, elm_messageTypeName_eq, flow_enumTypeName_eq,
    flow_messageTypeName_eq, and_self]
